import Mathlib

/-!
Verification of the ingestion-deduplication and publish-scheduler core of the
nima-gap repository. The Python sources (src/database.py, src/main.py,
src/ai.py, src/bot.py) are shallowly embedded below: pure helper functions
become Lean functions over strings and lists, the SQLite state becomes an
explicit record of rows, and the fallible remote calls become explicit
`Except`-valued inputs. Machine details that the claims depend on (the
timezone-awareness of Python datetimes, the UNIQUE constraints of the schema,
the exact branch structure of the per-candidate loop) are modelled explicitly.

String conventions: Python `str.lower()` is modelled by ASCII lowering (all
concrete inputs in this development are ASCII); Python whitespace `\s` is
modelled by the ASCII whitespace characters.
-/

namespace NimaGap

/-- ASCII lowering of one character, the fragment of Python `str.lower()`
exercised by this development. -/
def pyLowerChar (c : Char) : Char :=
  if c.toNat ≥ 65 ∧ c.toNat ≤ 90 then Char.ofNat (c.toNat + 32) else c

/-- Model of Python `str.lower()` (ASCII fragment). -/
def pyLower (s : String) : String :=
  String.mk (s.data.map pyLowerChar)

/-- Containment of one character list in another. -/
def listContains (s p : List Char) : Bool :=
  if p.isPrefixOf s then true
  else
    match s with
    | [] => false
    | _ :: t => listContains t p

/-- Substring test, Python `pat in s`. -/
def strContains (s pat : String) : Bool :=
  listContains s.data pat.data

/-! ## Retryable external call wrapper (src/ai.py, call_with_backoff)

The wrapped operation is modelled as a function from the invocation index
(0-based) to the outcome of that invocation: `Except.ok` is a normal return,
`Except.error e` is a raised exception whose `str()` is `e`. -/

/-- Error markers classified as rate limiting in ai.py. -/
def RATE_LIMIT_MARKERS : List String :=
  ["rate limit", "quota", "429", "resource exhausted", "too many requests",
   "overloaded"]

/-- Error markers classified as transient in ai.py. -/
def TRANSIENT_MARKERS : List String :=
  ["timeout", "connection", "503", "502", "500", "unavailable",
   "internal error"]

/-- The retryability test of call_with_backoff: the lowered error string
contains a rate-limit marker or a transient marker. -/
def isRetryableError (e : String) : Bool :=
  let errorStr := pyLower e
  (RATE_LIMIT_MARKERS.any (fun x => strContains errorStr x)) ||
  (TRANSIENT_MARKERS.any (fun x => strContains errorStr x))

/-- Result of a call_with_backoff run: a returned value or a raised
exception, each carrying how many times the operation was invoked;
`noCall` is the degenerate `max_retries = 0` path that re-raises the
initial `None`. -/
inductive BackoffResult (α : Type) where
  | ok (value : α) (calls : Nat)
  | raised (err : String) (calls : Nat)
  | noCall
deriving DecidableEq, Repr

/-- The retry loop of call_with_backoff: `i` is the attempt index, `last`
the last exception seen. Each loop iteration invokes the operation once;
a non-retryable failure is re-raised at once, a retryable one is retried
until the attempt budget is exhausted. -/
def backoffGo {α : Type} (op : Nat → Except String α) (maxRetries : Nat)
    (i : Nat) (last : Option String) : BackoffResult α :=
  if _h : i < maxRetries then
    match op i with
    | Except.ok a => BackoffResult.ok a (i + 1)
    | Except.error e =>
      if isRetryableError e then backoffGo op maxRetries (i + 1) (some e)
      else BackoffResult.raised e (i + 1)
  else
    match last with
    | none => BackoffResult.noCall
    | some e => BackoffResult.raised e i
termination_by maxRetries - i

/-- MAX_RETRIES of src/ai.py. -/
def MAX_RETRIES : Nat := 5

/-- call_with_backoff of src/ai.py over a modelled operation. -/
def call_with_backoff {α : Type} (op : Nat → Except String α)
    (maxRetries : Nat) : BackoffResult α :=
  backoffGo op maxRetries 0 none

theorem strContains_503_isRetryable (e : String)
    (h : strContains (pyLower e) "503" = true) :
    isRetryableError e = true := by
  simp only [isRetryableError, TRANSIENT_MARKERS, List.any_cons, Bool.or_eq_true,
    List.any_nil]
  tauto

/-- An operation that answers 503 twice and then succeeds. -/
def op503 : Nat → Except String Nat := fun i =>
  if i = 0 then Except.error "HTTP 503 Service Unavailable"
  else if i = 1 then Except.error "upstream 503 error"
  else Except.ok 7

/-- An operation that always fails with a non-retryable error. -/
def opApiKey : Nat → Except String Nat := fun _ =>
  Except.error "invalid api key"

/-- Claim C6: an operation failing with a retryable 503 error on its first two
invocations and succeeding on the third makes call_with_backoff return the
success value after exactly 3 invocations; an operation failing with a
non-retryable error is invoked exactly once and its error is re-raised at
once. -/
theorem call_with_backoff_invocation_counts {α : Type} :
    (∀ (op : Nat → Except String α) (e0 e1 : String) (a : α),
      op 0 = Except.error e0 → strContains (pyLower e0) "503" = true →
      op 1 = Except.error e1 → strContains (pyLower e1) "503" = true →
      op 2 = Except.ok a →
      call_with_backoff op MAX_RETRIES = BackoffResult.ok a 3) ∧
    (∀ (op : Nat → Except String α) (e : String),
      op 0 = Except.error e → isRetryableError e = false →
      call_with_backoff op MAX_RETRIES = BackoffResult.raised e 1) := by
  constructor
  · intro op e0 e1 a h0 hr0 h1 hr1 h2
    have r0 := strContains_503_isRetryable e0 hr0
    have r1 := strContains_503_isRetryable e1 hr1
    rw [call_with_backoff, MAX_RETRIES]
    rw [backoffGo]
    simp only [show (0:Nat) < 5 from by omega, dite_true, h0, r0, if_true]
    rw [backoffGo]
    simp only [show (1:Nat) < 5 from by omega, dite_true, h1, r1, if_true]
    rw [backoffGo]
    simp only [show (2:Nat) < 5 from by omega, dite_true, h2]
  · intro op e h0 hnr
    rw [call_with_backoff, MAX_RETRIES]
    rw [backoffGo]
    simp only [show (0:Nat) < 5 from by omega, dite_true, h0, hnr,
      Bool.false_eq_true, if_false]

/-- Witness for C6 at the two concrete operations above. -/
theorem call_with_backoff_invocation_counts_witness :
    call_with_backoff op503 MAX_RETRIES = BackoffResult.ok 7 3 ∧
    call_with_backoff opApiKey MAX_RETRIES =
      BackoffResult.raised "invalid api key" 1 :=
  ⟨(@call_with_backoff_invocation_counts Nat).1 op503
      "HTTP 503 Service Unavailable" "upstream 503 error" 7
      rfl (by decide) rfl (by decide) rfl,
   (@call_with_backoff_invocation_counts Nat).2 opApiKey
      "invalid api key" rfl (by decide)⟩

/-! ## Candidate merger (src/main.py, fetch_job interleaving loop)

One iteration of the `while articles_by_source:` loop appends the head of
every non-empty source list (in list order), records the indices of lists
that became empty, and removes those indices in reverse order. -/

/-- Items appended by one pass of the interleaving loop. -/
def mergePassTaken {α : Type} (ls : List (List α)) : List α :=
  ls.filterMap List.head?

/-- Indices collected into `empty_sources` during one pass: a list at index
`i` is recorded when it is empty after its head was popped. -/
def emptyIndices {α : Type} (ls : List (List α)) : List Nat :=
  (List.range ls.length).filter (fun i => ((ls.getD i []).tail).isEmpty)

/-- The `for i in reversed(empty_sources): articles_by_source.pop(i)` step:
erase the given (ascending) indices in reverse order. -/
def removeReversed {α : Type} (ls : List (List α)) (idxs : List Nat) :
    List (List α) :=
  idxs.reverse.foldl (fun acc i => acc.eraseIdx i) ls

/-- The source lists surviving one pass of the loop. -/
def fetchMergeRest {α : Type} (ls : List (List α)) : List (List α) :=
  removeReversed (ls.map List.tail) (emptyIndices ls)

/-- Total size measure used for termination of the merger. -/
def rrMeasure {α : Type} (ls : List (List α)) : Nat :=
  (ls.map (fun l => l.length + 1)).sum

theorem foldl_eraseIdx_map_succ {α : Type} (js : List Nat) (y : List α)
    (t : List (List α)) :
    (js.map Nat.succ).foldl (fun acc i => acc.eraseIdx i) (y :: t) =
      y :: js.foldl (fun acc i => acc.eraseIdx i) t := by
  induction js generalizing t with
  | nil => rfl
  | cons j rest ih =>
    simp only [List.map_cons, List.foldl_cons, List.eraseIdx_cons_succ]
    exact ih (t.eraseIdx j)

theorem removeReversed_range_filter {α : Type} (ys : List (List α)) :
    removeReversed ys
      ((List.range ys.length).filter (fun i => (ys.getD i []).isEmpty)) =
      ys.filter (fun l => !l.isEmpty) := by
  induction ys with
  | nil => rfl
  | cons y t ih =>
    simp only [removeReversed] at ih ⊢
    rw [List.length_cons, List.range_succ_eq_map, List.filter_cons]
    have hmap : (((List.range t.length).map Nat.succ).filter
        (fun i => (((y :: t).getD i []).isEmpty))) =
        ((List.range t.length).filter
          (fun i => ((t.getD i []).isEmpty))).map Nat.succ := by
      rw [List.filter_map]
      rfl
    rw [List.getD_cons_zero]
    by_cases hy : y.isEmpty
    · rw [if_pos hy, hmap, List.reverse_cons, ← List.map_reverse,
        List.foldl_append, foldl_eraseIdx_map_succ, List.foldl_cons,
        List.foldl_nil, List.eraseIdx_cons_zero, ih, List.filter_cons]
      simp [hy]
    · rw [if_neg hy, hmap, ← List.map_reverse, foldl_eraseIdx_map_succ, ih,
        List.filter_cons]
      simp [hy]

theorem fetchMergeRest_eq_filter {α : Type} (ls : List (List α)) :
    fetchMergeRest ls = (ls.map List.tail).filter (fun l => !l.isEmpty) := by
  have h := removeReversed_range_filter (ls.map List.tail)
  rw [fetchMergeRest]
  rw [← h, List.length_map]
  congr 1
  rw [emptyIndices]
  apply List.filter_congr
  intro i hi
  rw [List.mem_range] at hi
  congr 1
  rw [List.getD_eq_getElem?_getD, List.getD_eq_getElem?_getD,
    List.getElem?_map]
  rcases h2 : ls[i]? with _ | l
  · simp at h2; omega
  · simp

theorem rrMeasure_cons {α : Type} (x : List α) (t : List (List α)) :
    rrMeasure (x :: t) = (x.length + 1) + rrMeasure t := by
  simp [rrMeasure]

theorem rrMeasure_map_tail_filter_le {α : Type} (q : List α → Bool)
    (t : List (List α)) :
    rrMeasure ((t.map List.tail).filter q) ≤ rrMeasure t := by
  induction t with
  | nil => simp [rrMeasure]
  | cons x t ih =>
    simp only [List.map_cons, List.filter_cons]
    by_cases hx : q x.tail
    · rw [if_pos hx, rrMeasure_cons, rrMeasure_cons]
      have : x.tail.length ≤ x.length := by
        cases x <;> simp
      omega
    · rw [if_neg hx, rrMeasure_cons]
      omega

theorem rrMeasure_filter_map_tail_le {α : Type} (q : List α → Bool)
    (t : List (List α)) :
    rrMeasure ((t.filter q).map List.tail) ≤ rrMeasure t := by
  induction t with
  | nil => simp [rrMeasure]
  | cons x t ih =>
    simp only [List.filter_cons]
    by_cases hx : q x
    · rw [if_pos hx, List.map_cons, rrMeasure_cons, rrMeasure_cons]
      have : x.tail.length ≤ x.length := by
        cases x <;> simp
      omega
    · rw [if_neg hx, rrMeasure_cons]
      omega

theorem rrMeasure_rest_lt {α : Type} (x : List α) (t : List (List α)) :
    rrMeasure (((x :: t).map List.tail).filter (fun l => !l.isEmpty)) <
      rrMeasure (x :: t) := by
  simp only [List.map_cons, List.filter_cons]
  have hrest := rrMeasure_map_tail_filter_le (fun l => !l.isEmpty) t
  by_cases hx : (!x.tail.isEmpty) = true
  · rw [if_pos hx, rrMeasure_cons, rrMeasure_cons]
    have hne : x.tail ≠ [] := by
      simp only [Bool.not_eq_true'] at hx
      simpa [List.isEmpty_iff] using hx
    have hlen : x.tail.length + 1 ≤ x.length := by
      cases x with
      | nil => simp at hne
      | cons a l => simp
    omega
  · rw [if_neg hx, rrMeasure_cons]
    omega

/-- The interleaving while-loop of fetch_job: append one pass, continue with
the surviving sources. -/
def fetchMerge {α : Type} (ls : List (List α)) : List α :=
  if h : ls.isEmpty then []
  else mergePassTaken ls ++ fetchMerge (fetchMergeRest ls)
termination_by rrMeasure ls
decreasing_by
  rw [fetchMergeRest_eq_filter]
  cases ls with
  | nil => simp at h
  | cons x t => exact rrMeasure_rest_lt x t

theorem rrMeasure_spec_lt {α : Type} (ls : List (List α))
    (h : (ls.filter (fun l => !l.isEmpty)) ≠ []) :
    rrMeasure ((ls.filter (fun l => !l.isEmpty)).map List.tail) <
      rrMeasure ls := by
  induction ls with
  | nil => exact absurd rfl h
  | cons x t ih =>
    simp only [List.filter_cons] at h ⊢
    by_cases hx : (!x.isEmpty) = true
    · rw [if_pos hx, List.map_cons, rrMeasure_cons, rrMeasure_cons]
      have hne : x ≠ [] := by
        simp only [Bool.not_eq_true'] at hx
        simpa [List.isEmpty_iff] using hx
      have hlen : x.tail.length + 1 ≤ x.length := by
        cases x with
        | nil => simp at hne
        | cons a l => simp
      have := rrMeasure_filter_map_tail_le (fun l => !l.isEmpty) t
      omega
    · rw [if_neg hx] at h ⊢
      have := ih h
      rw [rrMeasure_cons]
      omega

/-- Round-robin interleaving as the specification words it: repeatedly take
one item from each non-exhausted source in fixed source order, dropping
sources as they exhaust, until all are exhausted. -/
def roundRobinSpec {α : Type} (ls : List (List α)) : List α :=
  let active := ls.filter (fun l => !l.isEmpty)
  if h : active.isEmpty then []
  else active.filterMap List.head? ++ roundRobinSpec (active.map List.tail)
termination_by rrMeasure ls
decreasing_by
  simp only [List.isEmpty_iff] at h
  exact rrMeasure_spec_lt ls h

theorem roundRobinSpec_filter {α : Type} (ls : List (List α)) :
    roundRobinSpec (ls.filter (fun l => !l.isEmpty)) = roundRobinSpec ls := by
  conv_lhs => rw [roundRobinSpec.eq_def]
  conv_rhs => rw [roundRobinSpec.eq_def]
  have hff : (ls.filter (fun l => !l.isEmpty)).filter (fun l => !l.isEmpty) =
      ls.filter (fun l => !l.isEmpty) := by
    rw [List.filter_filter]
    simp
  rw [hff]

theorem filter_map_tail_filter {α : Type} (ls : List (List α)) :
    (ls.map List.tail).filter (fun l => !l.isEmpty) =
      ((ls.filter (fun l => !l.isEmpty)).map List.tail).filter
        (fun l => !l.isEmpty) := by
  induction ls with
  | nil => rfl
  | cons x t ih =>
    simp only [List.map_cons, List.filter_cons]
    by_cases hx : (!x.isEmpty) = true
    · rw [if_pos hx, List.map_cons, List.filter_cons, ih]
    · rw [if_neg hx, ih]
      have hx2 : x = [] := by
        simp only [Bool.not_eq_true', List.isEmpty_iff] at hx
        simp at hx
        exact hx
      subst hx2
      simp

theorem filterMap_head_filter {α : Type} (ls : List (List α)) :
    ls.filterMap List.head? =
      (ls.filter (fun l => !l.isEmpty)).filterMap List.head? := by
  induction ls with
  | nil => rfl
  | cons x t ih =>
    cases x with
    | nil => simpa using ih
    | cons a l => simp [List.filter_cons, List.filterMap_cons, ih]

theorem rrMeasure_eq_zero {α : Type} (ls : List (List α))
    (h : rrMeasure ls = 0) : ls = [] := by
  cases ls with
  | nil => rfl
  | cons x t => rw [rrMeasure_cons] at h; omega

theorem fetchMerge_eq_roundRobinSpec {α : Type} (ls : List (List α)) :
    fetchMerge ls = roundRobinSpec ls := by
  suffices H : ∀ (n : Nat) (ls : List (List α)), rrMeasure ls ≤ n →
      fetchMerge ls = roundRobinSpec ls from H (rrMeasure ls) ls le_rfl
  intro n
  induction n with
  | zero =>
    intro ls h
    have := rrMeasure_eq_zero ls (by omega)
    subst this
    rw [fetchMerge.eq_def, roundRobinSpec.eq_def]
    simp
  | succ n ih =>
    intro ls h
    by_cases hls : ls.isEmpty
    · have : ls = [] := by simpa [List.isEmpty_iff] using hls
      subst this
      rw [fetchMerge.eq_def, roundRobinSpec.eq_def]
      simp
    · rw [fetchMerge.eq_def, dif_neg (by simp [hls]), fetchMergeRest_eq_filter]
      have hmeas : rrMeasure ((ls.map List.tail).filter
          (fun l => !l.isEmpty)) ≤ n := by
        have hlt : rrMeasure ((ls.map List.tail).filter
            (fun l => !l.isEmpty)) < rrMeasure ls := by
          cases ls with
          | nil => simp at hls
          | cons x t => exact rrMeasure_rest_lt x t
        omega
      rw [ih _ hmeas]
      conv_rhs => rw [roundRobinSpec.eq_def]
      by_cases hact : (ls.filter (fun l => !l.isEmpty)).isEmpty
      · rw [dif_pos hact]
        have h1 : mergePassTaken ls = [] := by
          rw [mergePassTaken, filterMap_head_filter]
          rw [show ls.filter (fun l => !l.isEmpty) = [] from by
            simpa [List.isEmpty_iff] using hact]
          rfl
        have h2 : (ls.map List.tail).filter (fun l => !l.isEmpty) = [] := by
          rw [filter_map_tail_filter]
          rw [show ls.filter (fun l => !l.isEmpty) = [] from by
            simpa [List.isEmpty_iff] using hact]
          rfl
        rw [h1, h2, roundRobinSpec.eq_def]
        simp
      · rw [dif_neg hact]
        congr 1
        · rw [mergePassTaken, filterMap_head_filter]
        · rw [filter_map_tail_filter, roundRobinSpec_filter]

/-- Claim C7: the candidate-merging step of fetch_job equals round-robin
interleaving over the per-source lists, and on sources A=[a1,a2,a3], B=[b1],
C=[c1,c2] it yields [a1,b1,c1,a2,c2,a3]. -/
theorem fetch_merge_is_round_robin :
    (∀ (α : Type) (ls : List (List α)), fetchMerge ls = roundRobinSpec ls) ∧
    fetchMerge [["a1", "a2", "a3"], ["b1"], ["c1", "c2"]] =
      ["a1", "b1", "c1", "a2", "c2", "a3"] := by
  refine ⟨fun α ls => fetchMerge_eq_roundRobinSpec ls, ?_⟩
  simp [fetchMerge.eq_def, mergePassTaken, fetchMergeRest_eq_filter]

/-! ## URL canonicalizer (src/database.py, normalize_url)

normalize_url is built on urllib.parse: urlparse, parse_qs, urlencode and
urlunparse. These stdlib functions are embedded below over character lists,
following CPython (3.11) Lib/urllib/parse.py. Percent decoding uses UTF-8
with replacement; percent encoding uses UTF-8 with uppercase hex. -/

/-- ASCII alphabetic character. -/
def isAsciiAlpha (c : Char) : Bool :=
  (65 ≤ c.toNat && c.toNat ≤ 90) || (97 ≤ c.toNat && c.toNat ≤ 122)

/-- ASCII digit. -/
def isAsciiDigit (c : Char) : Bool :=
  48 ≤ c.toNat && c.toNat ≤ 57

/-- Hexadecimal digit. -/
def isHexDigitChar (c : Char) : Bool :=
  isAsciiDigit c || (65 ≤ c.toNat && c.toNat ≤ 70) ||
    (97 ≤ c.toNat && c.toNat ≤ 102)

/-- Value of a hexadecimal digit. -/
def hexVal (c : Char) : Nat :=
  if isAsciiDigit c then c.toNat - 48
  else if 65 ≤ c.toNat && c.toNat ≤ 70 then c.toNat - 55
  else c.toNat - 87

/-- Uppercase hexadecimal digit for a value below 16. -/
def hexDigitUpper (n : Nat) : Char :=
  if n < 10 then Char.ofNat (48 + n) else Char.ofNat (55 + n)

/-- UTF-8 encoding of one character. -/
def utf8Encode (c : Char) : List Nat :=
  let n := c.toNat
  if n < 128 then [n]
  else if n < 2048 then [192 + n / 64, 128 + n % 64]
  else if n < 65536 then
    [224 + n / 4096, 128 + (n / 64) % 64, 128 + n % 64]
  else
    [240 + n / 262144, 128 + (n / 4096) % 64, 128 + (n / 64) % 64,
     128 + n % 64]

/-- The Unicode replacement character. -/
def replChar : Char := Char.ofNat 0xFFFD

/-- UTF-8 continuation byte. -/
def isContByte (b : Nat) : Bool := 128 ≤ b && b ≤ 191

/-- Allowed second byte after a three-byte lead. -/
def cont3Ok (b b2 : Nat) : Bool :=
  if b = 224 then 160 ≤ b2 && b2 ≤ 191
  else if b = 237 then 128 ≤ b2 && b2 ≤ 159
  else isContByte b2

/-- Allowed second byte after a four-byte lead. -/
def cont4Ok (b b2 : Nat) : Bool :=
  if b = 240 then 144 ≤ b2 && b2 ≤ 191
  else if b = 244 then 128 ≤ b2 && b2 ≤ 143
  else isContByte b2

/-- Decode one UTF-8 sequence starting at lead byte `b`: the decoded
character (the replacement character on a maximal invalid subpart) and how
many continuation bytes of `rest` were consumed. -/
def utf8DecodeStep (b : Nat) (rest : List Nat) : Char × Nat :=
  if b < 128 then (Char.ofNat b, 0)
  else if 194 ≤ b && b ≤ 223 then
    match rest with
    | b2 :: _ =>
      if isContByte b2 then (Char.ofNat ((b - 192) * 64 + (b2 - 128)), 1)
      else (replChar, 0)
    | [] => (replChar, 0)
  else if 224 ≤ b && b ≤ 239 then
    match rest with
    | b2 :: rest2 =>
      if cont3Ok b b2 then
        match rest2 with
        | b3 :: _ =>
          if isContByte b3 then
            (Char.ofNat ((b - 224) * 4096 + (b2 - 128) * 64 + (b3 - 128)), 2)
          else (replChar, 1)
        | [] => (replChar, 1)
      else (replChar, 0)
    | [] => (replChar, 0)
  else if 240 ≤ b && b ≤ 244 then
    match rest with
    | b2 :: rest2 =>
      if cont4Ok b b2 then
        match rest2 with
        | b3 :: rest3 =>
          if isContByte b3 then
            match rest3 with
            | b4 :: _ =>
              if isContByte b4 then
                (Char.ofNat ((b - 240) * 262144 + (b2 - 128) * 4096 +
                  (b3 - 128) * 64 + (b4 - 128)), 3)
              else (replChar, 2)
            | [] => (replChar, 2)
          else (replChar, 1)
        | [] => (replChar, 1)
      else (replChar, 0)
    | [] => (replChar, 0)
  else (replChar, 0)

/-- The decoding loop, structural on a fuel that bounds the number of
sequences; every step consumes at least the lead byte. -/
def utf8DecodeGo : Nat → List Nat → List Char
  | 0, _ => []
  | _, [] => []
  | fuel + 1, b :: rest =>
    let s := utf8DecodeStep b rest
    s.1 :: utf8DecodeGo fuel (rest.drop s.2)

/-- UTF-8 decoding of a byte list with replacement on errors. -/
def utf8Decode (bs : List Nat) : List Char :=
  utf8DecodeGo bs.length bs

/-- Characters never percent-encoded by urllib quote. -/
def alwaysSafeChar (c : Char) : Bool :=
  isAsciiAlpha c || isAsciiDigit c || c = '_' || c = '.' || c = '-' ||
    c = '~'

/-- urllib quote over characters with an extra safe set: safe characters
pass through, others become uppercase percent escapes of their UTF-8
bytes. -/
def quoteWith (safe : List Char) (s : List Char) : List Char :=
  (s.map (fun c =>
    if alwaysSafeChar c || safe.contains c then [c]
    else ((utf8Encode c).map (fun b =>
      ['%', hexDigitUpper (b / 16), hexDigitUpper (b % 16)])).flatten)).flatten

/-- urllib quote_plus with empty safe set, as called by urlencode: spaces
become plus signs, everything unsafe is percent-encoded. -/
def quotePlus (s : List Char) : List Char :=
  if s.contains ' ' then
    (quoteWith [' '] s).map (fun c => if c = ' ' then '+' else c)
  else quoteWith [] s

/-- The percent-decoding scan of urllib unquote: accumulate the bytes of an
ASCII run (percent escapes and literal ASCII characters), decode each run
as UTF-8 with replacement, pass non-ASCII characters through. -/
def unquoteGo : List Char → List Nat → List Char
  | [], pending => utf8Decode pending
  | '%' :: c1 :: c2 :: rest, pending =>
    if isHexDigitChar c1 && isHexDigitChar c2 then
      unquoteGo rest (pending ++ [hexVal c1 * 16 + hexVal c2])
    else unquoteGo (c1 :: c2 :: rest) (pending ++ [37])
  | c :: rest, pending =>
    if c.toNat < 128 then unquoteGo rest (pending ++ [c.toNat])
    else utf8Decode pending ++ c :: unquoteGo rest []

/-- urllib unquote with UTF-8 and replacement errors. -/
def unquote (s : List Char) : List Char :=
  unquoteGo s []

/-- urllib unquote_plus: plus signs become spaces before unquoting. -/
def unquotePlus (s : List Char) : List Char :=
  unquote (s.map (fun c => if c = '+' then ' ' else c))

/-- Split at the first occurrence of a character, Python split(c, 1). -/
def splitFirst (l : List Char) (c : Char) :
    Option (List Char × List Char) :=
  match l with
  | [] => none
  | x :: t =>
    if x = c then some ([], t)
    else
      match splitFirst t c with
      | none => none
      | some (a, b) => some (x :: a, b)

/-- Split at every occurrence of a character, Python split(c): the empty
string yields one empty piece. -/
def splitAll (l : List Char) (c : Char) : List (List Char) :=
  match l with
  | [] => [[]]
  | x :: t =>
    if x = c then [] :: splitAll t c
    else
      match splitAll t c with
      | [] => [[x]]
      | h :: r => (x :: h) :: r

/-- First index of a character at or after `start`, Python find(c, start). -/
def findFrom (l : List Char) (c : Char) (start : Nat) : Option Nat :=
  match (l.drop start).findIdx? (fun x => x = c) with
  | none => none
  | some j => some (start + j)

/-- Last index of a character, Python rfind(c). -/
def lastIdxOf (l : List Char) (c : Char) : Option Nat :=
  match l.reverse.findIdx? (fun x => x = c) with
  | none => none
  | some j => some (l.length - 1 - j)

/-- Result of urllib urlsplit. -/
structure UrlSplitResult where
  scheme : List Char
  netloc : List Char
  path : List Char
  query : List Char
  fragment : List Char
deriving DecidableEq, Repr

/-- Result of urllib urlparse: urlsplit plus the params component split
from the path. -/
structure UrlParseResult where
  scheme : List Char
  netloc : List Char
  path : List Char
  params : List Char
  query : List Char
  fragment : List Char
deriving DecidableEq, Repr

/-- Characters allowed in a scheme after its leading letter. -/
def isSchemeChar (c : Char) : Bool :=
  isAsciiAlpha c || isAsciiDigit c || c = '+' || c = '-' || c = '.'

/-- Scheme detection of urlsplit: a left-most colon preceded by a letter and
scheme characters splits off the (lowercased) scheme. -/
def schemeSplit (url : List Char) : List Char × List Char :=
  match url.findIdx? (fun c => c = ':') with
  | some i =>
    if 0 < i &&
        (match url.head? with
         | some c0 => isAsciiAlpha c0
         | none => false) &&
        ((url.take i).drop 1).all isSchemeChar then
      ((url.take i).map pyLowerChar, url.drop (i + 1))
    else ([], url)
  | none => ([], url)

/-- Fragment and query splitting of urlsplit (allow_fragments is true). -/
def urlsplitRest (scheme netloc r : List Char) : UrlSplitResult :=
  let fr :=
    match splitFirst r '#' with
    | some (a, b) => (a, b)
    | none => (r, ([] : List Char))
  let qr :=
    match splitFirst fr.1 '?' with
    | some (a, b) => (a, b)
    | none => (fr.1, ([] : List Char))
  ⟨scheme, netloc, qr.1, qr.2, fr.2⟩

/-- The tab, carriage-return and newline characters removed by urlsplit. -/
def UNSAFE_URL_CHARS : List Char := [Char.ofNat 9, Char.ofNat 13, Char.ofNat 10]

/-- urllib urlsplit (CPython 3.11): strip unsafe characters, detect the
scheme, split the network location after a double slash, then fragment and
query. A bracket mismatch in the netloc raises ValueError. The NFKC netloc
check and bracketed-host validation, which concern non-ASCII and IPv6
inputs only, are not modelled. -/
def urlsplit (url0 : List Char) : Except String UrlSplitResult :=
  let url1 := url0.filter (fun c => !(UNSAFE_URL_CHARS.contains c))
  let si := schemeSplit url1
  let scheme := si.1
  let r0 := si.2
  if r0.take 2 = ['/', '/'] then
    let delim :=
      match (r0.drop 2).findIdx? (fun c => c = '/' || c = '?' || c = '#') with
      | some k => k + 2
      | none => r0.length
    let netloc := (r0.take delim).drop 2
    let r1 := r0.drop delim
    if (netloc.contains '[' && !(netloc.contains ']')) ||
        (netloc.contains ']' && !(netloc.contains '[')) then
      Except.error "Invalid IPv6 URL"
    else Except.ok (urlsplitRest scheme netloc r1)
  else Except.ok (urlsplitRest scheme [] r0)

/-- The params split of urlparse: the part of the last path segment after
its first semicolon. -/
def splitParams (path : List Char) : List Char × List Char :=
  let i :=
    if path.contains '/' then
      match lastIdxOf path '/' with
      | some k => findFrom path ';' k
      | none => none
    else path.findIdx? (fun c => c = ';')
  match i with
  | none => (path, [])
  | some i => (path.take i, path.drop (i + 1))

/-- urllib urlparse. -/
def urlparse (url : List Char) : Except String UrlParseResult :=
  match urlsplit url with
  | Except.error e => Except.error e
  | Except.ok r =>
    let pp := splitParams r.path
    Except.ok ⟨r.scheme, r.netloc, pp.1, pp.2, r.query, r.fragment⟩

/-- urllib parse_qsl with keep_blank_values: split the query on ampersands,
skip empty pieces, split each piece at its first equals sign, and unquote
names and values. -/
def parseQsl (qs : List Char) : List (List Char × List Char) :=
  (splitAll qs '&').foldr
    (fun piece acc =>
      if piece.isEmpty then acc
      else
        match splitFirst piece '=' with
        | some (n, v) => (unquotePlus n, unquotePlus v) :: acc
        | none => (unquotePlus piece, []) :: acc)
    []

/-- Append a name-value pair to the grouped dictionary of parse_qs,
preserving first-occurrence key order. -/
def addPair (acc : List (List Char × List (List Char))) (n v : List Char) :
    List (List Char × List (List Char)) :=
  if acc.any (fun kv => kv.1 = n) then
    acc.map (fun kv => if kv.1 = n then (kv.1, kv.2 ++ [v]) else kv)
  else acc ++ [(n, [v])]

/-- urllib parse_qs with keep_blank_values: group parse_qsl pairs by key. -/
def parseQs (qs : List Char) : List (List Char × List (List Char)) :=
  (parseQsl qs).foldl (fun acc nv => addPair acc nv.1 nv.2) []

/-- Interpose a separator character between pieces. -/
def joinWith (c : Char) (parts : List (List Char)) : List Char :=
  match parts with
  | [] => []
  | p :: rest => p ++ (rest.map (fun q => c :: q)).flatten

/-- urllib urlencode with doseq over the grouped dictionary: one `k=v`
piece per value, quote_plus applied to keys and values. -/
def urlencodeDoseq (d : List (List Char × List (List Char))) : List Char :=
  joinWith '&'
    ((d.map (fun kv => kv.2.map (fun v => quotePlus kv.1 ++ '=' :: quotePlus v))).flatten)

/-- urllib urlunsplit. -/
def urlunsplit (scheme netloc url query fragment : List Char) : List Char :=
  let url1 :=
    if !netloc.isEmpty || (!url.isEmpty && url.take 2 = ['/', '/']) then
      let url2 := if !url.isEmpty && url.take 1 ≠ ['/'] then '/' :: url else url
      '/' :: '/' :: (netloc ++ url2)
    else url
  let url3 := if !scheme.isEmpty then scheme ++ ':' :: url1 else url1
  let url4 := if !query.isEmpty then url3 ++ '?' :: query else url3
  if !fragment.isEmpty then url4 ++ '#' :: fragment else url4

/-- urllib urlunparse: rejoin params to the path, then urlunsplit. -/
def urlunparse (scheme netloc path params query fragment : List Char) :
    List Char :=
  let url := if !params.isEmpty then path ++ ';' :: params else path
  urlunsplit scheme netloc url query fragment

/-- TRACKING_PARAMS of src/database.py. -/
def TRACKING_PARAMS : List String :=
  ["utm_source", "utm_medium", "utm_campaign", "utm_term", "utm_content",
   "ref", "source", "fbclid", "gclid", "mc_cid", "mc_eid"]

/-- TRACKING_PARAMS as character lists. -/
def trackingParams : List (List Char) := TRACKING_PARAMS.map String.data

/-- The reddit host aliases collapsed by normalize_url. -/
def redditHosts : List (List Char) :=
  (["old.reddit.com", "www.reddit.com", "np.reddit.com"] :
    List String).map String.data

/-- Python rstrip("/"): drop every trailing slash. -/
def rstripSlash (l : List Char) : List Char :=
  (l.reverse.dropWhile (fun c => c = '/')).reverse

/-- The host normalization of normalize_url: lowercase, collapse the
reddit aliases, strip one leading `www.`. -/
def hostTransform (netloc : List Char) : List Char :=
  let host0 := netloc.map pyLowerChar
  let host1 :=
    if redditHosts.contains host0 then ("reddit.com" : String).data
    else host0
  if ("www." : String).data.isPrefixOf host1 then host1.drop 4 else host1

/-- The query normalization of normalize_url: parse, drop tracking
parameters, re-encode (empty when nothing remains). -/
def queryTransform (query : List Char) : List Char :=
  let filtered := (parseQs query).filter
    (fun kv => !(trackingParams.contains (kv.1.map pyLowerChar)))
  if filtered.isEmpty then [] else urlencodeDoseq filtered

/-- The path normalization of normalize_url: strip trailing slashes, the
empty path becomes the root path. -/
def pathTransform (path : List Char) : List Char :=
  let stripped := rstripSlash path
  if stripped.isEmpty then ['/'] else stripped

/-- normalize_url of src/database.py over a character list: lowercase the
scheme and host, collapse reddit aliases, strip one leading `www.`, drop
tracking query parameters by re-encoding the parsed query, strip trailing
slashes from the path (empty becomes "/"), drop the fragment; a parse
error returns the input unchanged. -/
def normalizeUrlList (url : List Char) : List Char :=
  match urlparse url with
  | Except.error _ => url
  | Except.ok p =>
    urlunparse (p.scheme.map pyLowerChar) (hostTransform p.netloc)
      (pathTransform p.path) p.params (queryTransform p.query) []

/-- normalize_url of src/database.py. -/
def normalize_url (s : String) : String :=
  String.mk (normalizeUrlList s.data)

/-! ## Content fingerprinter (src/database.py, compute_content_hash)

compute_content_hash lowercases the title and the first 500 characters of
the body, joins them with a space, collapses whitespace runs, strips, then
takes the first 32 hexadecimal characters of the SHA-256 of the UTF-8
encoding. SHA-256 is implemented below over byte lists (FIPS 180-4). -/

/-- Truncation to 32 bits. -/
def w32 (n : Nat) : Nat := n % 4294967296

/-- Right rotation of a 32-bit word. -/
def rotr32 (k n : Nat) : Nat :=
  w32 ((n >>> k) ||| (n <<< (32 - k)))

/-- The SHA-256 round constants. -/
def sha256K : List Nat :=
  [1116352408, 1899447441, 3049323471, 3921009573, 961987163, 1508970993,
   2453635748, 2870763221, 3624381080, 310598401, 607225278, 1426881987,
   1925078388, 2162078206, 2614888103, 3248222580, 3835390401, 4022224774,
   264347078, 604807628, 770255983, 1249150122, 1555081692, 1996064986,
   2554220882, 2821834349, 2952996808, 3210313671, 3336571891, 3584528711,
   113926993, 338241895, 666307205, 773529912, 1294757372, 1396182291,
   1695183700, 1986661051, 2177026350, 2456956037, 2730485921, 2820302411,
   3259730800, 3345764771, 3516065817, 3600352804, 4094571909, 275423344,
   430227734, 506948616, 659060556, 883997877, 958139571, 1322822218,
   1537002063, 1747873779, 1955562222, 2024104815, 2227730452, 2361852424,
   2428436474, 2756734187, 3204031479, 3329325298]

/-- The SHA-256 initial hash value. -/
def sha256H0 : List Nat :=
  [1779033703, 3144134277, 1013904242, 2773480762, 1359893119, 2600822924,
   528734635, 1541459225]

/-- Big-endian bytes of the 64-bit message length. -/
def be8 (n : Nat) : List Nat :=
  (List.range 8).map (fun i => (n >>> ((7 - i) * 8)) % 256)

/-- SHA-256 message padding: one 0x80 byte, zeros to 56 mod 64, then the
bit length. -/
def sha256Pad (bs : List Nat) : List Nat :=
  let padZeros := (119 - bs.length % 64) % 64
  bs ++ 128 :: List.replicate padZeros 0 ++ be8 (bs.length * 8)

/-- Big-endian 32-bit words of a byte list. -/
def bytesToWords : List Nat → List Nat
  | b1 :: b2 :: b3 :: b4 :: rest =>
    (b1 * 16777216 + b2 * 65536 + b3 * 256 + b4) :: bytesToWords rest
  | _ => []

/-- The block-splitting loop, structural on a fuel that bounds the number
of blocks. -/
def chunks64Go : Nat → List Nat → List (List Nat)
  | 0, _ => []
  | _, [] => []
  | fuel + 1, b :: rest =>
    (b :: rest).take 64 :: chunks64Go fuel ((b :: rest).drop 64)

/-- Split a byte list into 64-byte blocks. -/
def chunks64 (bs : List Nat) : List (List Nat) :=
  chunks64Go bs.length bs

/-- Extension of the 16-word message schedule, `fuel` more words. -/
def extendSchedule : Nat → List Nat → List Nat
  | 0, ws => ws
  | n + 1, ws =>
    let t := ws.length
    let w15 := ws.getD (t - 15) 0
    let w2 := ws.getD (t - 2) 0
    let s0 := (rotr32 7 w15) ^^^ (rotr32 18 w15) ^^^ (w15 >>> 3)
    let s1 := (rotr32 17 w2) ^^^ (rotr32 19 w2) ^^^ (w2 >>> 10)
    extendSchedule n
      (ws ++ [w32 (ws.getD (t - 16) 0 + s0 + ws.getD (t - 7) 0 + s1)])

/-- One SHA-256 compression round; the state is the eight working
variables. -/
def sha256Round (st : List Nat) (k w : Nat) : List Nat :=
  let a := st.getD 0 0
  let b := st.getD 1 0
  let c := st.getD 2 0
  let d := st.getD 3 0
  let e := st.getD 4 0
  let f := st.getD 5 0
  let g := st.getD 6 0
  let h := st.getD 7 0
  let s1 := (rotr32 6 e) ^^^ (rotr32 11 e) ^^^ (rotr32 25 e)
  let ch := (e &&& f) ^^^ ((e ^^^ 4294967295) &&& g)
  let temp1 := w32 (h + s1 + ch + k + w)
  let s0 := (rotr32 2 a) ^^^ (rotr32 13 a) ^^^ (rotr32 22 a)
  let maj := (a &&& b) ^^^ (a &&& c) ^^^ (b &&& c)
  let temp2 := w32 (s0 + maj)
  [w32 (temp1 + temp2), a, b, c, w32 (d + temp1), e, f, g]

/-- Compress one 64-byte block into the running hash. -/
def sha256Block (hs : List Nat) (block : List Nat) : List Nat :=
  let ws := extendSchedule 48 (bytesToWords block)
  let st := (List.zip sha256K ws).foldl
    (fun st kw => sha256Round st kw.1 kw.2) hs
  (List.zip hs st).map (fun p => w32 (p.1 + p.2))

/-- SHA-256 of a byte list, as the list of eight hash words. -/
def sha256Words (bs : List Nat) : List Nat :=
  (chunks64 (sha256Pad bs)).foldl sha256Block sha256H0

/-- Lowercase hexadecimal digit. -/
def hexDigitLower (n : Nat) : Char :=
  if n < 10 then Char.ofNat (48 + n) else Char.ofNat (87 + n)

/-- Lowercase hexadecimal rendering of a 32-bit word. -/
def wordToHex (n : Nat) : List Char :=
  (List.range 8).map (fun i => hexDigitLower ((n >>> ((7 - i) * 4)) % 16))

/-- hashlib sha256 hexdigest of a byte list. -/
def sha256Hex (bs : List Nat) : List Char :=
  ((sha256Words bs).map wordToHex).flatten

/-- Python whitespace characters matched by the re pattern (ASCII
fragment). -/
def isPyWhitespace (c : Char) : Bool :=
  c = ' ' || c.toNat = 9 || c.toNat = 10 || c.toNat = 13 || c.toNat = 12 ||
    c.toNat = 11

theorem dropWhileLenLe {α : Type} (p : α → Bool) (l : List α) :
    (l.dropWhile p).length ≤ l.length := by
  induction l with
  | nil => simp
  | cons a t ih =>
    rw [List.dropWhile_cons]
    by_cases h : p a
    · simp only [h, if_true, List.length_cons]
      omega
    · simp [h]

/-- The substitution of the pattern of one or more whitespace characters by
one space: a whitespace run emits a single space; the flag records being
inside a run. -/
def collapseWsGo : List Char → Bool → List Char
  | [], _ => []
  | c :: t, inRun =>
    if isPyWhitespace c then
      if inRun then collapseWsGo t true else ' ' :: collapseWsGo t true
    else c :: collapseWsGo t false

/-- re.sub of one-or-more whitespace by one space. -/
def collapseWs (l : List Char) : List Char :=
  collapseWsGo l false

/-- Python str.strip(): drop whitespace at both ends. -/
def stripWs (l : List Char) : List Char :=
  ((l.dropWhile isPyWhitespace).reverse.dropWhile isPyWhitespace).reverse

/-- The normalization key hashed by compute_content_hash: lowercased title,
one space, lowercased 500-character body prefix, whitespace runs collapsed
to single spaces, stripped. -/
def contentKey (title content : String) : List Char :=
  stripWs (collapseWs
    (title.data.map pyLowerChar ++ ' ' ::
      (content.data.take 500).map pyLowerChar))

/-- compute_content_hash of src/database.py: first 32 hexadecimal
characters of the SHA-256 of the UTF-8 encoded key. -/
def compute_content_hash (title content : String) : String :=
  String.mk ((sha256Hex ((contentKey title content).map utf8Encode).flatten).take 32)

/-! ## Persistence layer (src/database.py)

The SQLite state is a record of the two tables with their autoincrement
counters. Timestamps are stored by the code as `datetime.isoformat()`
strings; they are modelled as a pair of the time in seconds and the
timezone-awareness flag, because `datetime.fromisoformat` restores the
awareness of the stored value and mixed-awareness arithmetic raises
TypeError in Python. For timestamps in the fixed isoformat layout, SQL
string comparison agrees with the lexicographic order on (seconds, aware).
The video_width and video_height columns play no part in any claim and are
omitted from the row model. -/

/-- A Python datetime: time in seconds and timezone-awareness. -/
structure PyDateTime where
  seconds : Int
  aware : Bool
deriving DecidableEq, Repr

/-- datetime.utcnow(): the current time as a naive datetime. -/
def utcnow (t : Int) : PyDateTime := ⟨t, false⟩

/-- datetime.now(timezone.utc): the current time as an aware datetime. -/
def nowUtc (t : Int) : PyDateTime := ⟨t, true⟩

/-- Python datetime subtraction: defined only between two naive or two
aware datetimes, otherwise TypeError. -/
def dtSub (a b : PyDateTime) : Except String Int :=
  if a.aware = b.aware then Except.ok (a.seconds - b.seconds)
  else Except.error
    "TypeError: cannot subtract offset-naive and offset-aware datetimes"

/-- Strict order of stored isoformat strings (seconds first, naive before
aware at equal times, matching the string layouts). -/
def dtLtBool (a b : PyDateTime) : Bool :=
  a.seconds < b.seconds || (a.seconds == b.seconds && !a.aware && b.aware)

/-- A row of the articles table. -/
structure ArticleRow where
  id : Nat
  source_name : String
  original_url : String
  normalized_url : Option String
  original_title : String
  original_summary : String
  content_hash : Option String
  image_url : Option String
  local_image_path : Option String
  local_video_path : Option String
  media_type : String
  uzbek_content : Option String
  status : String
  created_at : PyDateTime
  published_at : Option PyDateTime
deriving DecidableEq, Repr

/-- A row of the seen_urls table. -/
structure SeenRow where
  id : Nat
  normalized_url : String
  original_url : String
  content_hash : Option String
  status : String
  reason : Option String
  created_at : PyDateTime
deriving DecidableEq, Repr

/-- The database state: both tables in rowid order with their autoincrement
counters. -/
structure DB where
  articles : List ArticleRow
  seen : List SeenRow
  nextArticleId : Nat
  nextSeenId : Nat
deriving DecidableEq, Repr

/-- article_exists: an articles row with the normalized URL exists (SQL
equality, so a NULL normalized_url never matches). -/
def article_exists (db : DB) (url : String) : Bool :=
  db.articles.any (fun r => r.normalized_url == some (normalize_url url))

/-- url_seen: a seen_urls row with the normalized URL exists. -/
def url_seen (db : DB) (url : String) : Bool :=
  db.seen.any (fun r => r.normalized_url == normalize_url url)

/-- content_hash_exists: the hash appears in articles or seen_urls. -/
def content_hash_exists (db : DB) (h : String) : Bool :=
  db.articles.any (fun r => r.content_hash == some h) ||
    db.seen.any (fun r => r.content_hash == some h)

/-- mark_url_seen: insert a seen_urls row; on the UNIQUE normalized_url
violation, update status, reason and content_hash in place. -/
def mark_url_seen (db : DB) (url : String) (contentHash : Option String)
    (status : String) (reason : Option String) (now : PyDateTime) : DB :=
  let n := normalize_url url
  if db.seen.any (fun r => r.normalized_url == n) then
    { db with
      seen := db.seen.map (fun r =>
        if r.normalized_url == n then
          { r with status := status, reason := reason,
                   content_hash := contentHash }
        else r) }
  else
    { db with
      seen := db.seen ++ [⟨db.nextSeenId, n, url, contentHash, status,
        reason, now⟩],
      nextSeenId := db.nextSeenId + 1 }

/-- create_article: insert a pending row; the schema enforces UNIQUE on
original_url (and only there), so a duplicate raw URL raises
IntegrityError. Returns the new row id. -/
def create_article (db : DB) (source_name original_url original_title
    original_summary : String) (content_hash : Option String)
    (image_url local_image_path local_video_path : Option String)
    (media_type : String) (uzbek_content : String) (now : PyDateTime) :
    Except String (DB × Nat) :=
  if db.articles.any (fun r => r.original_url == original_url) then
    Except.error "IntegrityError: UNIQUE constraint failed: articles.original_url"
  else
    let id := db.nextArticleId
    Except.ok
      ({ db with
         articles := db.articles ++ [⟨id, source_name, original_url,
           some (normalize_url original_url), original_title,
           original_summary, content_hash, image_url, local_image_path,
           local_video_path, media_type, some uzbek_content, "pending",
           now, none⟩],
         nextArticleId := id + 1 }, id)

/-- get_article_by_id. -/
def get_article_by_id (db : DB) (articleId : Nat) : Option ArticleRow :=
  db.articles.find? (fun r => r.id == articleId)

/-- update_article_status: set the status of the row with the given id. -/
def update_article_status (db : DB) (articleId : Nat) (status : String) :
    DB :=
  { db with
    articles := db.articles.map (fun r =>
      if r.id == articleId then { r with status := status } else r) }

/-- Row order of the `ORDER BY created_at ASC` scan, ties by rowid. -/
def rowOrderLt (a b : ArticleRow) : Bool :=
  dtLtBool a.created_at b.created_at ||
    (a.created_at == b.created_at && a.id < b.id)

/-- get_next_publishable: the oldest approved article by creation time. -/
def get_next_publishable (db : DB) : Option ArticleRow :=
  (db.articles.filter (fun r => r.status == "approved")).foldl
    (fun acc r =>
      match acc with
      | none => some r
      | some m => if rowOrderLt r m then some r else some m)
    none

/-- mark_published: set status published and stamp published_at with the
aware datetime.now(timezone.utc). -/
def mark_published (db : DB) (articleId : Nat) (now : Int) : DB :=
  { db with
    articles := db.articles.map (fun r =>
      if r.id == articleId then
        { r with status := "published", published_at := some (nowUtc now) }
      else r) }

/-- get_last_publish_time: MAX(published_at) over published rows (SQL MAX
ignores NULL), restored by fromisoformat with its stored awareness. -/
def get_last_publish_time (db : DB) : Option PyDateTime :=
  (db.articles.filter (fun r => r.status == "published")).foldl
    (fun acc r =>
      match r.published_at, acc with
      | none, a => a
      | some d, none => some d
      | some d, some m => if dtLtBool m d then some d else some m)
    none

/-! ## Publish gate (src/main.py, publish_job) and moderation callback
(src/bot.py, approval_callback)

publish_job reads the last publish time, compares the elapsed naive
utcnow() difference against the configured gap, and otherwise delivers the
oldest approved article; mark_published runs only after a successful
delivery. The delivery outcome of publish_article is an input. -/

/-- The selection-and-delivery tail of publish_job, reached when the gate
is open. -/
def publishStep (db : DB) (nowSec : Int) (deliverOk : Bool) :
    Except String (DB × Option Nat) :=
  match get_next_publishable db with
  | none => Except.ok (db, none)
  | some article =>
    if deliverOk then
      Except.ok (mark_published db article.id nowSec, some article.id)
    else Except.ok (db, none)

/-- publish_job of src/main.py: `datetime.utcnow() - last_publish` guards
the gate (a TypeError propagates to the scheduler loop), then at most one
publish action. Returns the published article id, if any. -/
def publish_job (gapMinutes : Int) (db : DB) (nowSec : Int)
    (deliverOk : Bool) : Except String (DB × Option Nat) :=
  match get_last_publish_time db with
  | some lastPublish =>
    match dtSub (utcnow nowSec) lastPublish with
    | Except.error e => Except.error e
    | Except.ok elapsed =>
      if elapsed < gapMinutes * 60 then Except.ok (db, none)
      else publishStep db nowSec deliverOk
  | none => publishStep db nowSec deliverOk

/-- The replies of approval_callback. -/
inductive CallbackReply where
  | noPermission
  | notFound
  | approvedMsg
  | rejectedMsg
deriving DecidableEq, Repr

/-- approval_callback of src/bot.py: non-admin users are refused, an
unknown id reports not found, otherwise the status is set to approved or
rejected according to the button action. -/
def approval_callback (db : DB) (fromUser adminId : Int) (action : String)
    (articleId : Nat) : DB × CallbackReply :=
  if fromUser ≠ adminId then (db, CallbackReply.noPermission)
  else
    match get_article_by_id db articleId with
    | none => (db, CallbackReply.notFound)
    | some _ =>
      if action == "approve" then
        (update_article_status db articleId "approved",
         CallbackReply.approvedMsg)
      else
        (update_article_status db articleId "rejected",
         CallbackReply.rejectedMsg)

/-! ## Theorems on the persistence layer and publish gate -/

instance {e a : Type} [DecidableEq e] [DecidableEq a] :
    DecidableEq (Except e a) := fun x y =>
  match x, y with
  | Except.ok v, Except.ok w =>
    if h : v = w then Decidable.isTrue (congrArg Except.ok h)
    else Decidable.isFalse (fun hc => h (Except.ok.inj hc))
  | Except.error v, Except.error w =>
    if h : v = w then Decidable.isTrue (congrArg Except.error h)
    else Decidable.isFalse (fun hc => h (Except.error.inj hc))
  | Except.ok _, Except.error _ =>
    Decidable.isFalse (fun hc => Except.noConfusion hc)
  | Except.error _, Except.ok _ =>
    Decidable.isFalse (fun hc => Except.noConfusion hc)

theorem get_next_publishable_spec (db : DB) (a : ArticleRow)
    (h : get_next_publishable db = some a) :
    a.status = "approved" ∧ a ∈ db.articles := by
  rw [get_next_publishable] at h
  have main : ∀ (l : List ArticleRow) (acc : Option ArticleRow),
      (∀ x, acc = some x → x.status = "approved" ∧ x ∈ db.articles) →
      (∀ r ∈ l, r.status = "approved" ∧ r ∈ db.articles) →
      ∀ b, l.foldl (fun acc r =>
        match acc with
        | none => some r
        | some m => if rowOrderLt r m then some r else some m) acc =
          some b →
      b.status = "approved" ∧ b ∈ db.articles := by
    intro l
    induction l with
    | nil =>
      intro acc hacc _ b hb
      exact hacc b hb
    | cons r t ih =>
      intro acc hacc hl b hb
      simp only [List.foldl_cons] at hb
      apply ih _ _ _ b hb
      · intro x hx
        cases acc with
        | none =>
          simp only at hx
          injection hx with h2
          subst h2
          exact hl r (List.mem_cons_self r t)
        | some m =>
          simp only at hx
          by_cases hlt : rowOrderLt r m
          · rw [if_pos hlt] at hx
            injection hx with h2
            subst h2
            exact hl r (List.mem_cons_self r t)
          · rw [if_neg hlt] at hx
            exact hacc x hx
      · intro r2 hr2
        exact hl r2 (List.mem_cons_of_mem r hr2)
  apply main _ none (by intro x hx; cases hx) _ a h
  intro r hr
  have hmem := List.mem_filter.mp hr
  refine ⟨?_, hmem.1⟩
  simpa using hmem.2

/-- Claim C1 (the code defect behind it): mark_published stores an aware
UTC timestamp, and whenever the most recent published timestamp is aware
(as every stored one is), publish_job raises TypeError from subtracting
the aware last-publish time from the naive utcnow(), publishing nothing,
instead of comparing the elapsed time against the configured gap. -/
theorem publish_job_typeerror_after_any_publish :
    (∀ (db : DB) (articleId : Nat) (now : Int) (r : ArticleRow),
      r ∈ (mark_published db articleId now).articles → r.id = articleId →
      r.published_at = some (nowUtc now)) ∧
    (∀ (gap : Int) (db : DB) (now : Int) (dOk : Bool) (lp : PyDateTime),
      get_last_publish_time db = some lp → lp.aware = true →
      publish_job gap db now dOk = Except.error
        "TypeError: cannot subtract offset-naive and offset-aware datetimes") := by
  constructor
  · intro db articleId now r hr hid
    rw [mark_published] at hr
    simp only [List.mem_map] at hr
    obtain ⟨o, _ho, heq⟩ := hr
    by_cases hoid : o.id = articleId
    · rw [if_pos (by simpa using hoid)] at heq
      rw [← heq]
    · rw [if_neg (by simpa using hoid)] at heq
      subst heq
      exact absurd hid hoid
  · intro gap db now dOk lp hlast haware
    simp [publish_job, hlast, dtSub, utcnow, haware]

/-- An article already published 61 minutes before the evaluation time and
an approved article awaiting publication. -/
def c1db : DB :=
  ⟨[⟨1, "reddit", "https://example.com/p1", some "https://example.com/p1",
     "T1", "S1", none, none, none, none, "image", some "x", "published",
     ⟨0, true⟩, some ⟨6340, true⟩⟩,
    ⟨2, "reddit", "https://example.com/p2", some "https://example.com/p2",
     "T2", "S2", none, none, none, none, "image", some "y", "approved",
     ⟨100, true⟩, none⟩], [], 3, 1⟩

/-- Witness for C1: at the concrete state above (last publish 61 minutes
ago, gap 60 minutes), publish_job raises instead of publishing, and the
timestamp mark_published writes is aware. -/
theorem publish_job_typeerror_witness :
    publish_job 60 c1db 10000 true = Except.error
      "TypeError: cannot subtract offset-naive and offset-aware datetimes" ∧
    ({ (⟨1, "reddit", "https://example.com/p1",
        some "https://example.com/p1", "T1", "S1", none, none, none, none,
        "image", some "x", "published", ⟨0, true⟩,
        some ⟨6340, true⟩⟩ : ArticleRow) with
        published_at := some (nowUtc 500) }).published_at =
      some (nowUtc 500) :=
  ⟨publish_job_typeerror_after_any_publish.2 60 c1db 10000 true
      ⟨6340, true⟩ (by decide) rfl,
   publish_job_typeerror_after_any_publish.1 c1db 1 500 _ (by decide) rfl⟩

/-- The empty database. -/
def c3db0 : DB := ⟨[], [], 1, 1⟩

/-- First insert: raw URL with the www prefix. -/
def c3step1 : Except String (DB × Nat) :=
  create_article c3db0 "reddit" "https://www.example.com/a" "T1" "S1"
    none none none none "image" "u1" ⟨0, true⟩

/-- State after the first insert. -/
def c3db1 : DB :=
  match c3step1 with
  | Except.ok p => p.1
  | Except.error _ => c3db0

/-- Second insert: a different raw URL with the same canonical URL. -/
def c3step2 : Except String (DB × Nat) :=
  create_article c3db1 "rss" "https://example.com/a" "T2" "S2"
    none none none none "image" "u2" ⟨1, true⟩

/-- State after the second insert. -/
def c3db2 : DB :=
  match c3step2 with
  | Except.ok p => p.1
  | Except.error _ => c3db1

/-- Counterexample to claim C3: two raw URLs sharing one canonical URL are
both accepted by create_article, leaving two distinct rows with equal
normalized_url; no constraint rejects the second insert. -/
theorem normalized_url_uniqueness_refuted :
    c3step2 = Except.ok (c3db2, 2) ∧
    c3db2.articles.map (fun r => r.id) = [1, 2] ∧
    c3db2.articles.map (fun r => r.normalized_url) =
      [some "https://example.com/a", some "https://example.com/a"] := by
  refine ⟨?_, ?_, ?_⟩ <;> decide

/-- Claim C3 as amended: the articles table enforces uniqueness of the raw
original_url, not of the canonical URL: an insert whose original_url is
already present raises IntegrityError, and an insert with a fresh
original_url is stored as a new pending row (its normalized_url merely
recorded and indexed, with no uniqueness of its own). -/
theorem create_article_unique_on_original_url :
    (∀ (db : DB) (sn u t s : String) (ch iu lip lvp : Option String)
      (mt uz : String) (now : PyDateTime),
      db.articles.any (fun r => r.original_url == u) = true →
      create_article db sn u t s ch iu lip lvp mt uz now = Except.error
        "IntegrityError: UNIQUE constraint failed: articles.original_url") ∧
    (∀ (db : DB) (sn u t s : String) (ch iu lip lvp : Option String)
      (mt uz : String) (now : PyDateTime),
      db.articles.any (fun r => r.original_url == u) = false →
      create_article db sn u t s ch iu lip lvp mt uz now = Except.ok
        ({ db with
           articles := db.articles ++ [⟨db.nextArticleId, sn, u,
             some (normalize_url u), t, s, ch, iu, lip, lvp, mt, some uz,
             "pending", now, none⟩],
           nextArticleId := db.nextArticleId + 1 }, db.nextArticleId)) := by
  constructor
  · intro db sn u t s ch iu lip lvp mt uz now hdup
    rw [create_article, if_pos hdup]
  · intro db sn u t s ch iu lip lvp mt uz now hfresh
    rw [create_article, if_neg (by simp [hfresh])]

/-- Witness for the amended C3 at concrete states: the duplicate raw URL is
rejected, the fresh one accepted. -/
theorem create_article_unique_on_original_url_witness :
    create_article c3db2 "x" "https://example.com/a" "T3" "S3" none none
      none none "image" "u3" ⟨2, true⟩ = Except.error
      "IntegrityError: UNIQUE constraint failed: articles.original_url" ∧
    create_article c3db0 "x" "https://example.com/b" "T0" "S0" none none
      none none "image" "u0" ⟨0, true⟩ = Except.ok
      ({ c3db0 with
         articles := c3db0.articles ++ [⟨c3db0.nextArticleId, "x",
           "https://example.com/b",
           some (normalize_url "https://example.com/b"), "T0", "S0", none,
           none, none, none, "image", some "u0", "pending", ⟨0, true⟩,
           none⟩],
         nextArticleId := c3db0.nextArticleId + 1 }, c3db0.nextArticleId) :=
  ⟨create_article_unique_on_original_url.1 c3db2 "x"
      "https://example.com/a" "T3" "S3" none none none none "image" "u3"
      ⟨2, true⟩ (by decide),
   create_article_unique_on_original_url.2 c3db0 "x"
      "https://example.com/b" "T0" "S0" none none none none "image" "u0"
      ⟨0, true⟩ (by decide)⟩

theorem publishStep_false (db : DB) (now : Int) :
    publishStep db now false = Except.ok (db, none) := by
  rw [publishStep]
  cases get_next_publishable db <;> simp

/-- Claim C10: when delivery fails, publish_job leaves the database
unchanged (the selected article keeps status approved and its published_at
stays unset, since mark_published runs only after a successful delivery),
so the next gate evaluation selects the same article. -/
theorem publish_failure_is_atomic :
    ∀ (gap : Int) (db : DB) (now : Int) (st : DB) (pid : Option Nat),
      publish_job gap db now false = Except.ok (st, pid) →
      st = db ∧ pid = none ∧
      get_next_publishable st = get_next_publishable db ∧
      (∀ a, get_next_publishable db = some a →
        a.status = "approved" ∧ a ∈ db.articles) := by
  intro gap db now st pid h
  have key : st = db ∧ pid = none := by
    rw [publish_job] at h
    cases hlast : get_last_publish_time db with
    | some lp =>
      simp only [hlast] at h
      cases hsub : dtSub (utcnow now) lp with
      | error e =>
        simp only [hsub] at h
        exact Except.noConfusion h
      | ok elapsed =>
        simp only [hsub] at h
        by_cases hlt : elapsed < gap * 60
        · rw [if_pos hlt] at h
          injection h with h2
          rw [Prod.mk.injEq] at h2
          exact ⟨h2.1.symm, h2.2.symm⟩
        · rw [if_neg hlt, publishStep_false] at h
          injection h with h2
          rw [Prod.mk.injEq] at h2
          exact ⟨h2.1.symm, h2.2.symm⟩
    | none =>
      simp only [hlast, publishStep_false] at h
      injection h with h2
      rw [Prod.mk.injEq] at h2
      exact ⟨h2.1.symm, h2.2.symm⟩
  obtain ⟨h1, h2⟩ := key
  exact ⟨h1, h2, by rw [h1],
    fun a ha => get_next_publishable_spec db a ha⟩

/-- A single approved article with no publish history. -/
def c10db : DB :=
  ⟨[⟨1, "rss", "https://example.com/w", some "https://example.com/w",
     "T", "S", none, none, none, none, "image", some "x", "approved",
     ⟨0, true⟩, none⟩], [], 2, 1⟩

/-- Witness for C10 at the concrete state above. -/
theorem publish_failure_is_atomic_witness :
    c10db = c10db ∧ (none : Option Nat) = none ∧
    get_next_publishable c10db = get_next_publishable c10db ∧
    (∀ a, get_next_publishable c10db = some a →
      a.status = "approved" ∧ a ∈ c10db.articles) :=
  publish_failure_is_atomic 60 c10db 10000 c10db none (by decide)

/-- One article already in the terminal published state. -/
def c5db : DB :=
  ⟨[⟨1, "rss", "https://example.com/q", some "https://example.com/q",
     "T", "S", none, none, none, none, "image", some "x", "published",
     ⟨0, true⟩, some ⟨0, true⟩⟩], [], 2, 1⟩

/-- Counterexample to claim C5: the moderation callback moves an already
published article back to approved (it checks only that the id exists,
not the current status). -/
theorem approval_callback_retransitions_published :
    c5db.articles.map (fun r => r.status) = ["published"] ∧
    ((approval_callback c5db 42 42 "approve" 1).2 =
      CallbackReply.approvedMsg) ∧
    ((approval_callback c5db 42 42 "approve" 1).1.articles.map
      (fun r => r.status)) = ["approved"] := by
  refine ⟨?_, ?_, ?_⟩ <;> decide

/-- Claim C5 as amended: ingestion only ever creates rows in status
pending, and the publish gate never touches a published or rejected row
(it moves only the selected approved row); the moderation callback,
however, re-transitions terminal rows, as the counterexample shows. -/
theorem creation_pending_and_gate_preserves_terminal :
    (∀ (db : DB) (sn u t s : String) (ch iu lip lvp : Option String)
      (mt uz : String) (now : PyDateTime) (db2 : DB) (newId : Nat),
      create_article db sn u t s ch iu lip lvp mt uz now =
        Except.ok (db2, newId) →
      ∃ r, db2.articles = db.articles ++ [r] ∧ r.status = "pending") ∧
    (∀ (gap : Int) (db : DB) (now : Int) (dOk : Bool) (st : DB)
      (pid : Option Nat),
      (db.articles.map (fun r => r.id)).Nodup →
      publish_job gap db now dOk = Except.ok (st, pid) →
      ∀ r ∈ db.articles,
        r.status = "published" ∨ r.status = "rejected" →
        r ∈ st.articles) := by
  constructor
  · intro db sn u t s ch iu lip lvp mt uz now db2 newId h
    rw [create_article] at h
    by_cases hdup : db.articles.any (fun r => r.original_url == u) = true
    · rw [if_pos hdup] at h
      exact Except.noConfusion h
    · rw [if_neg hdup] at h
      injection h with h2
      rw [Prod.mk.injEq] at h2
      obtain ⟨h3, _⟩ := h2
      subst h3
      exact ⟨_, rfl, rfl⟩
  · intro gap db now dOk st pid hnodup h r hr hterm
    have step : ∀ (st2 : DB) (pid2 : Option Nat),
        publishStep db now dOk = Except.ok (st2, pid2) →
        r ∈ st2.articles := by
      intro st2 pid2 hstep
      rw [publishStep] at hstep
      cases hnext : get_next_publishable db with
      | none =>
        simp only [hnext] at hstep
        injection hstep with h2
        rw [Prod.mk.injEq] at h2
        rw [← h2.1]
        exact hr
      | some a =>
        simp only [hnext] at hstep
        obtain ⟨hstat, hamem⟩ := get_next_publishable_spec db a hnext
        by_cases hdel : dOk = true
        · rw [if_pos hdel] at hstep
          injection hstep with h2
          rw [Prod.mk.injEq] at h2
          rw [← h2.1, mark_published]
          have hne : r.id ≠ a.id := by
            intro heq
            have hra : r = a :=
              List.inj_on_of_nodup_map hnodup hr hamem heq
            rw [hra] at hterm
            rw [hstat] at hterm
            rcases hterm with h5 | h5 <;> exact absurd h5 (by decide)
          refine List.mem_map.mpr ⟨r, hr, ?_⟩
          rw [if_neg (by simpa using hne)]
        · rw [if_neg hdel] at hstep
          injection hstep with h2
          rw [Prod.mk.injEq] at h2
          rw [← h2.1]
          exact hr
    rw [publish_job] at h
    cases hlast : get_last_publish_time db with
    | some lp =>
      simp only [hlast] at h
      cases hsub : dtSub (utcnow now) lp with
      | error e =>
        simp only [hsub] at h
        exact Except.noConfusion h
      | ok elapsed =>
        simp only [hsub] at h
        by_cases hlt : elapsed < gap * 60
        · rw [if_pos hlt] at h
          injection h with h2
          rw [Prod.mk.injEq] at h2
          rw [← h2.1]
          exact hr
        · rw [if_neg hlt] at h
          exact step st pid h
    | none =>
      simp only [hlast] at h
      exact step st pid h

/-- A rejected article next to an approved one, no publish history. -/
def c5wdb : DB :=
  ⟨[⟨1, "rss", "https://example.com/r1", some "https://example.com/r1",
     "T1", "S1", none, none, none, none, "image", some "x", "rejected",
     ⟨0, true⟩, none⟩,
    ⟨2, "rss", "https://example.com/r2", some "https://example.com/r2",
     "T2", "S2", none, none, none, none, "image", some "y", "approved",
     ⟨50, true⟩, none⟩], [], 3, 1⟩

/-- The state created by inserting one fresh article into the empty
database. -/
def c5newDb : DB :=
  ⟨[⟨1, "x", "https://example.com/b", some "https://example.com/b", "T0",
     "S0", none, none, none, none, "image", some "u0", "pending",
     ⟨0, true⟩, none⟩], [], 2, 1⟩

/-- Witness for the amended C5: a concrete creation yields a pending row,
and a concrete successful publish leaves the rejected row in place. -/
theorem creation_pending_and_gate_preserves_terminal_witness :
    (∃ r, c5newDb.articles = c3db0.articles ++ [r] ∧
      r.status = "pending") ∧
    (⟨1, "rss", "https://example.com/r1", some "https://example.com/r1",
      "T1", "S1", none, none, none, none, "image", some "x", "rejected",
      ⟨0, true⟩, none⟩ : ArticleRow) ∈
      (mark_published c5wdb 2 10000).articles :=
  ⟨creation_pending_and_gate_preserves_terminal.1 c3db0 "x"
      "https://example.com/b" "T0" "S0" none none none none "image" "u0"
      ⟨0, true⟩ c5newDb 1 (by decide),
   creation_pending_and_gate_preserves_terminal.2 60 c5wdb 10000 true
      (mark_published c5wdb 2 10000) (some 2) (by decide) (by decide)
      _ (by decide) (Or.inr rfl)⟩

/-! ## Similar-title search (src/database.py, title_similarity and
find_similar_title)

title_similarity is difflib SequenceMatcher(None, a, b).ratio(); the
matcher is embedded following CPython Lib/difflib.py: the index map b2j
(with the autojunk removal of popular elements when b has at least 200
elements), the longest-match dynamic program with its extension loops, and
the recursive block sum; the ratio is computed in exact rationals. -/

/-- Add one index to the b2j entry of a character. -/
def b2jAdd (acc : List (Char × List Nat)) (c : Char) (j : Nat) :
    List (Char × List Nat) :=
  if acc.any (fun kv => kv.1 == c) then
    acc.map (fun kv => if kv.1 == c then (kv.1, kv.2 ++ [j]) else kv)
  else acc ++ [(c, [j])]

/-- The b2j map of SequenceMatcher: character to ascending indices in b,
with popular elements removed when b has 200 or more elements. -/
def buildB2j (b : List Char) : List (Char × List Nat) :=
  let m := (b.enum.foldl (fun acc p => b2jAdd acc p.2 p.1) [])
  if 200 ≤ b.length then
    let ntest := b.length / 100 + 1
    m.filter (fun kv => !(ntest < kv.2.length))
  else m

/-- Lookup in the b2j map. -/
def b2jGet (m : List (Char × List Nat)) (c : Char) : List Nat :=
  match m.find? (fun kv => kv.1 == c) with
  | some kv => kv.2
  | none => []

/-- The inner loop of find_longest_match over the occurrence list of a[i]:
skip below blo, stop at bhi, thread the run-length map and the best
triple. -/
def flmInner (j2lenPrev : Nat → Nat) (i blo bhi : Nat) :
    List Nat → (Nat → Nat) → (Nat × Nat × Nat) →
    ((Nat → Nat) × (Nat × Nat × Nat))
  | [], newj2len, best => (newj2len, best)
  | j :: rest, newj2len, best =>
    if j < blo then flmInner j2lenPrev i blo bhi rest newj2len best
    else if bhi ≤ j then (newj2len, best)
    else
      let k := j2lenPrev (j - 1) + 1
      let newj2len2 := fun x => if x = j then k else newj2len x
      let best2 :=
        if best.2.2 < k then (i - k + 1, j - k + 1, k) else best
      flmInner j2lenPrev i blo bhi rest newj2len2 best2

/-- The dynamic program of find_longest_match. -/
def flmDP (a : List Char) (m : List (Char × List Nat))
    (alo ahi blo bhi : Nat) : Nat × Nat × Nat :=
  (((List.range (ahi - alo)).map (fun k => k + alo)).foldl
    (fun st i =>
      flmInner st.1 i blo bhi (b2jGet m (a.getD i (Char.ofNat 0)))
        (fun _ => 0) st.2)
    ((fun _ => 0), (alo, blo, 0))).2

/-- Backward extension of the best match by equal elements (the junk set
is empty since title_similarity passes isjunk None). -/
def flmExtendBack (a b : List Char) (alo blo : Nat) :
    Nat → (Nat × Nat × Nat) → (Nat × Nat × Nat)
  | 0, best => best
  | fuel + 1, (besti, bestj, bestsize) =>
    if alo < besti && blo < bestj &&
        (a.getD (besti - 1) (Char.ofNat 0) ==
          b.getD (bestj - 1) (Char.ofNat 0)) then
      flmExtendBack a b alo blo fuel (besti - 1, bestj - 1, bestsize + 1)
    else (besti, bestj, bestsize)

/-- Forward extension of the best match by equal elements. -/
def flmExtendFwd (a b : List Char) (ahi bhi : Nat) :
    Nat → (Nat × Nat × Nat) → (Nat × Nat × Nat)
  | 0, best => best
  | fuel + 1, (besti, bestj, bestsize) =>
    if besti + bestsize < ahi && bestj + bestsize < bhi &&
        (a.getD (besti + bestsize) (Char.ofNat 0) ==
          b.getD (bestj + bestsize) (Char.ofNat 0)) then
      flmExtendFwd a b ahi bhi fuel (besti, bestj, bestsize + 1)
    else (besti, bestj, bestsize)

/-- find_longest_match of SequenceMatcher on the window
[alo, ahi) x [blo, bhi). -/
def findLongestMatch (a b : List Char) (m : List (Char × List Nat))
    (alo ahi blo bhi : Nat) : Nat × Nat × Nat :=
  flmExtendFwd a b ahi bhi (bhi + 1)
    (flmExtendBack a b alo blo (bhi + 1) (flmDP a m alo ahi blo bhi))

/-- Total size of all matching blocks: recursively take the longest match
and recurse on both sides, as get_matching_blocks does; the fuel bounds the
recursion depth by the window length. -/
def matchSum (a b : List Char) (m : List (Char × List Nat)) :
    Nat → Nat → Nat → Nat → Nat → Nat
  | 0, _, _, _, _ => 0
  | fuel + 1, alo, ahi, blo, bhi =>
    let best := findLongestMatch a b m alo ahi blo bhi
    let besti := best.1
    let bestj := best.2.1
    let bestsize := best.2.2
    if bestsize = 0 then 0
    else
      matchSum a b m fuel alo besti blo bestj + bestsize +
        matchSum a b m fuel (besti + bestsize) ahi (bestj + bestsize) bhi

/-- SequenceMatcher(None, a, b).ratio() in exact rationals:
2 M / (len a + len b), and 1 on two empty sequences. -/
def sequenceRatio (a b : List Char) : Rat :=
  let total := a.length + b.length
  if total = 0 then 1
  else
    mkRat (2 * (matchSum a b (buildB2j b) (a.length + 1) 0 a.length 0
      b.length)) total

/-- Python str.strip() on a character list. -/
def pyStripWs (l : List Char) : List Char :=
  ((l.dropWhile isPyWhitespace).reverse.dropWhile isPyWhitespace).reverse

/-- title_similarity of src/database.py: the SequenceMatcher ratio of the
lowered, stripped titles. -/
def title_similarity (title1 title2 : String) : Rat :=
  sequenceRatio (pyStripWs (title1.data.map pyLowerChar))
    (pyStripWs (title2.data.map pyLowerChar))

/-- The similarity threshold of find_similar_title. -/
def SIMILARITY_THRESHOLD : Rat := mkRat 85 100

/-- Stable insertion into a list ordered by descending created_at. -/
def insertDescCreated (r : ArticleRow) : List ArticleRow → List ArticleRow
  | [] => [r]
  | x :: t =>
    if dtLtBool x.created_at r.created_at then r :: x :: t
    else x :: insertDescCreated r t

/-- Stable sort by descending created_at, the ORDER BY created_at DESC
scan. -/
def sortDescCreated (l : List ArticleRow) : List ArticleRow :=
  l.foldr insertDescCreated []

/-- find_similar_title of src/database.py: scan the 500 most recent active
articles younger than 30 days and return the first whose title similarity
reaches the threshold. -/
def find_similar_title (db : DB) (title : String) (now : Int) :
    Option ArticleRow :=
  let cutoff : PyDateTime := ⟨now - 30 * 86400, true⟩
  let recent := (sortDescCreated (db.articles.filter (fun r =>
    (r.status == "pending" || r.status == "approved" ||
      r.status == "published") &&
    !(dtLtBool r.created_at cutoff)))).take 500
  match recent.find? (fun r =>
      SIMILARITY_THRESHOLD ≤ title_similarity title r.original_title) with
  | some r => get_article_by_id db r.id
  | none => none

/-! ## Remote-call wrappers (src/ai.py) and the per-candidate screening of
fetch_job (src/main.py)

classify_article and translate_article wrap the remote call; the outcome
of the backoff-wrapped call is an input (`Except.error` is the exception
that call_with_backoff re-raised, terminal or after exhaustion), and the
JSON and markdown-fence parsing of the classification response text is
abstracted to its outcome. In fetch_job itself neither wrapper is ever
reached: candidates are the FetchedArticle records of src/fetcher.py,
which carry only url, title, content and image_url, while main.py line
158 reads article.source_type (and later article.score and
article.media_type). That attribute access raises AttributeError, which
the per-candidate catch-all of main.py lines 273-275 absorbs, counting
the candidate as failed without writing any SeenRecord. (The
classify_article and translate_article call sites at main.py lines
170-177 and 191-199 would also fail Python argument binding against the
signatures of ai.py lines 265 and 328, leaving the required content and
source_url parameters unbound.) -/

/-- ClassificationResult of src/ai.py. -/
structure ClassificationResult where
  is_relevant : Bool
  reason : String
deriving DecidableEq, Repr

/-- TranslationResult of src/ai.py. -/
structure TranslationResult where
  content : String
  success : Bool
  error : Option String
deriving DecidableEq, Repr

/-- classify_article of src/ai.py: any exception is caught and reported as
not relevant with an Error reason; an unparseable response is reported as
not relevant with a parse-error reason; classify_article itself never
raises. -/
def classify_article (call : Except String (Option (Bool × String))) :
    ClassificationResult :=
  match call with
  | Except.error e => ⟨false, "Error: " ++ e⟩
  | Except.ok none => ⟨false, "JSON parse error"⟩
  | Except.ok (some p) => ⟨p.1, p.2⟩

/-- translate_article of src/ai.py: any exception is caught and reported
as an unsuccessful result carrying the error string; on success the
response text is stripped. -/
def translate_article (call : Except String String) : TranslationResult :=
  match call with
  | Except.error e => ⟨"", false, some e⟩
  | Except.ok text => ⟨String.mk (pyStripWs text.data), true, none⟩

/-- FetchedArticle of src/fetcher.py: the candidate record every feed
adapter produces, with exactly these four fields. -/
structure FetchedArticle where
  url : String
  title : String
  content : String
  image_url : Option String
deriving DecidableEq, Repr

/-- Python truthiness of an optional string: None and the empty string are
falsy (the `not article.image_url` test of main.py line 150). -/
def optStrFalsy : Option String → Bool
  | none => true
  | some s => s.isEmpty

/-- The screening outcome of one candidate in fetch_job. -/
inductive Outcome where
  | dupUrl
  | dupHash
  | dupTitle (articleId : Nat)
  | noMedia
  | exceptionCaught
deriving DecidableEq, Repr

/-- The per-candidate body of fetch_job as the frozen source executes it:
URL deduplication (no SeenRecord written on this branch), content-hash
and similar-title deduplication, the no-media prefilter; any candidate
surviving those screens reaches the article.source_type read of main.py
line 158, which raises AttributeError into the catch-all of lines
273-275, so the classification, translation, media-caching and creation
code below it never runs and nothing is written. -/
def processCandidate (db : DB) (c : FetchedArticle) (now : Int) :
    DB × Outcome :=
  if article_exists db c.url || url_seen db c.url then (db, Outcome.dupUrl)
  else
    let contentHash := compute_content_hash c.title c.content
    if content_hash_exists db contentHash then
      (mark_url_seen db c.url (some contentHash) "duplicate"
        (some "content hash match") (nowUtc now), Outcome.dupHash)
    else
      match find_similar_title db c.title now with
      | some similar =>
        (mark_url_seen db c.url (some contentHash) "duplicate"
          (some ("similar to article " ++ toString similar.id))
          (nowUtc now), Outcome.dupTitle similar.id)
      | none =>
        if optStrFalsy c.image_url then
          (mark_url_seen db c.url (some contentHash) "irrelevant"
            (some "no media") (nowUtc now), Outcome.noMedia)
        else (db, Outcome.exceptionCaught)

/-- The disposition status stored in seen_urls for a URL. -/
def seenStatusOf (db : DB) (url : String) : Option String :=
  (db.seen.find? (fun r => r.normalized_url == normalize_url url)).map
    (fun r => r.status)

theorem seenStatusOf_mark (db : DB) (url : String) (ch : Option String)
    (st : String) (rs : Option String) (now : PyDateTime) :
    seenStatusOf (mark_url_seen db url ch st rs now) url = some st := by
  rw [mark_url_seen, seenStatusOf]
  by_cases hex : db.seen.any
      (fun r => r.normalized_url == normalize_url url) = true
  · rw [if_pos hex]
    have aux : ∀ (l : List SeenRow),
        l.any (fun r => r.normalized_url == normalize_url url) = true →
        ((l.map (fun r =>
          if r.normalized_url == normalize_url url then
            { r with status := st, reason := rs, content_hash := ch }
          else r)).find?
            (fun r => r.normalized_url == normalize_url url)).map
          (fun r => r.status) = some st := by
      intro l hl
      induction l with
      | nil => simp at hl
      | cons r t ih =>
        simp only [List.map_cons]
        by_cases hr : (r.normalized_url == normalize_url url) = true
        · rw [if_pos hr, List.find?_cons_of_pos _ (by simpa using hr)]
          rfl
        · rw [if_neg hr, List.find?_cons_of_neg _ (by simpa using hr)]
          apply ih
          simp only [List.any_cons, hr, Bool.false_or] at hl
          exact hl
    exact aux db.seen hex
  · rw [if_neg hex]
    have aux : ∀ (l : List SeenRow),
        l.any (fun r => r.normalized_url == normalize_url url) = false →
        ((l ++ [(⟨db.nextSeenId, normalize_url url, url, ch, st, rs,
            now⟩ : SeenRow)]).find?
          (fun r => r.normalized_url == normalize_url url)).map
          (fun r => r.status) = some st := by
      intro l hl
      induction l with
      | nil =>
        simp only [List.nil_append]
        rw [List.find?_cons_of_pos _ (by simp)]
        rfl
      | cons r t ih =>
        simp only [List.any_cons, Bool.or_eq_false_iff] at hl
        simp only [List.cons_append]
        rw [List.find?_cons_of_neg _ (by simp [hl.1])]
        exact ih (by simp [hl.2])
    exact aux db.seen (by simpa using hex)

theorem url_seen_mark (db : DB) (url : String) (ch : Option String)
    (st : String) (rs : Option String) (now : PyDateTime) :
    url_seen (mark_url_seen db url ch st rs now) url = true := by
  have h := seenStatusOf_mark db url ch st rs now
  rw [seenStatusOf] at h
  rcases hf : (mark_url_seen db url ch st rs now).seen.find?
      (fun r => r.normalized_url == normalize_url url) with _ | r
  · rw [hf] at h
    simp at h
  · rw [url_seen]
    have hmem := List.mem_of_find?_eq_some hf
    have hpred := List.find?_some hf
    exact List.any_eq_true.mpr ⟨r, hmem, hpred⟩

/-- One tracked article whose canonical URL is not in seen_urls. -/
def c2db : DB :=
  ⟨[⟨1, "rss", "https://example.com/a", some "https://example.com/a",
     "Existing", "S", none, none, none, none, "image", some "x", "pending",
     ⟨0, true⟩, none⟩], [], 2, 1⟩

/-- A candidate whose URL canonicalizes to the tracked article URL. -/
def c2cand : FetchedArticle :=
  ⟨"https://example.com/a", "Fresh Copy", "Body",
   some "https://img.example.com/x.jpg"⟩

/-- A candidate with no media, screened out with a SeenRecord written. -/
def c2cand2 : FetchedArticle :=
  ⟨"https://example.com/nm", "No Media", "Body", none⟩

/-- Counterexample to claim C2: a candidate that is a duplicate by
canonical URL (present in articles but not in seen_urls) is skipped with
no SeenRecord written, so its canonical URL is still absent from
seen_urls after the cycle. -/
theorem url_duplicate_writes_no_seen_record :
    (processCandidate c2db c2cand 0).2 = Outcome.dupUrl ∧
    (processCandidate c2db c2cand 0).1.seen = [] ∧
    url_seen (processCandidate c2db c2cand 0).1
      "https://example.com/a" = false := by
  refine ⟨?_, ?_, ?_⟩ <;> decide

/-- Claim C2 as amended: the duplicate-by-content-hash, similar-title and
no-media screening outcomes all leave a SeenRecord for the candidate URL;
the duplicate-by-canonical-URL outcome writes nothing and leaves the
database unchanged, and so does the catch-all outcome taken by every
candidate that survives the screens, because the ensuing
article.source_type read raises AttributeError before any remote call or
creation - neither URL duplicates nor failed candidates are protected
from re-screening. -/
theorem screened_outcomes_write_seen :
    ∀ (db : DB) (c : FetchedArticle) (now : Int) (db2 : DB) (out : Outcome),
      processCandidate db c now = (db2, out) →
      (out = Outcome.dupUrl → db2 = db) ∧
      ((out = Outcome.dupHash ∨ (∃ i, out = Outcome.dupTitle i) ∨
        out = Outcome.noMedia) → url_seen db2 c.url = true) ∧
      (out = Outcome.exceptionCaught → db2 = db) := by
  intro db c now db2 out h
  simp only [processCandidate] at h
  repeat' split at h
  all_goals (
    rw [Prod.mk.injEq] at h
    obtain ⟨hdb, hout⟩ := h
    subst hdb
    subst hout
    refine ⟨?_, ?_, ?_⟩
    · intro hc
      first
        | rfl
        | (exfalso; simp at hc)
    · intro hd
      first
        | exact url_seen_mark _ _ _ _ _ _
        | (exfalso
           rcases hd with hd | ⟨i, hd⟩ | hd <;> simp at hd)
    · intro hc
      first
        | rfl
        | (exfalso; simp at hc))

/-- Witness for the amended C2: the URL-duplicate candidate leaves the
state unchanged, and the no-media candidate gets a SeenRecord. -/
theorem screened_outcomes_write_seen_witness :
    (processCandidate c2db c2cand 0).1 = c2db ∧
    url_seen (processCandidate c2db c2cand2 0).1
      "https://example.com/nm" = true :=
  ⟨(screened_outcomes_write_seen c2db c2cand 0 _ _ rfl).1 (by decide),
   (screened_outcomes_write_seen c2db c2cand2 0 _ _ rfl).2.1
     (Or.inr (Or.inr (by decide)))⟩

/-- The empty database for the dead remote-call path. -/
def c9db : DB := ⟨[], [], 1, 1⟩

/-- A fresh candidate with media: it survives every screen and reaches the
article.source_type read. -/
def c9cand : FetchedArticle :=
  ⟨"https://example.com/c9", "Title Nine", "Body",
   some "https://img.example.com/i.jpg"⟩

/-- C9: the claimed failed disposition for terminal remote-call errors
never happens. A candidate that survives the URL, content-hash, title and
no-media screens raises AttributeError at the article.source_type read
before any remote call; the catch-all absorbs it, returning with the
database unchanged - no SeenRecord of any status, in particular not
failed, is written, though ingestion does continue. Moreover, even at the
ai.py level a terminal error never surfaces: classify_article converts
every exception into a not-relevant result and translate_article into an
unsuccessful one, neither of them raising. -/
theorem terminal_errors_unreachable_no_failed_record :
    (∀ (db : DB) (c : FetchedArticle) (now : Int),
      (article_exists db c.url || url_seen db c.url) = false →
      content_hash_exists db (compute_content_hash c.title c.content) =
        false →
      find_similar_title db c.title now = none →
      optStrFalsy c.image_url = false →
      processCandidate db c now = (db, Outcome.exceptionCaught)) ∧
    ∀ e : String,
      classify_article (Except.error e) = ⟨false, "Error: " ++ e⟩ ∧
      translate_article (Except.error e) = ⟨"", false, some e⟩ := by
  constructor
  · intro db c now h1 h2 h3 h4
    simp [processCandidate, h1, h2, h3, h4]
  · intro e
    exact ⟨rfl, rfl⟩

/-- Witness for the C9 theorem: the concrete media candidate on the empty
database falls into the catch-all with the database unchanged, and a
concrete terminal classification error is converted, not raised. -/
theorem terminal_errors_unreachable_no_failed_record_witness :
    processCandidate c9db c9cand 0 = (c9db, Outcome.exceptionCaught) ∧
    classify_article (Except.error "PermissionDenied 403") =
      ⟨false, "Error: PermissionDenied 403"⟩ :=
  ⟨terminal_errors_unreachable_no_failed_record.1 c9db c9cand 0
      (by decide) (by decide) (by decide) (by decide),
   (terminal_errors_unreachable_no_failed_record.2
      "PermissionDenied 403").1⟩

/-! ## Whitespace structure of the fingerprint key (claim C4)

Two strings differ only in whitespace exactly when their lists of maximal
non-whitespace runs coincide; `wsWords` computes those runs. The key fact
is that the collapse-and-strip normalization of compute_content_hash
depends only on the word list. -/

/-- The word accumulation loop: split into maximal non-whitespace runs. -/
def wsWordsGo : List Char → List Char → List (List Char)
  | [], acc => if acc.isEmpty then [] else [acc]
  | c :: t, acc =>
    if isPyWhitespace c then
      if acc.isEmpty then wsWordsGo t [] else acc :: wsWordsGo t []
    else wsWordsGo t (acc ++ [c])

/-- The maximal non-whitespace runs of a string. -/
def wsWords (l : List Char) : List (List Char) :=
  wsWordsGo l []

theorem collapse_true_skip (t : List Char) :
    collapseWsGo t true = collapseWsGo (t.dropWhile isPyWhitespace) false := by
  induction t with
  | nil => rfl
  | cons c t ih =>
    rw [collapseWsGo, List.dropWhile_cons]
    by_cases hc : isPyWhitespace c
    · rw [if_pos hc, if_pos hc, if_pos rfl]
      exact ih
    · rw [if_neg hc, if_neg hc, collapseWsGo, if_neg hc]

theorem wsWordsGo_skip (t : List Char) :
    wsWordsGo t [] = wsWordsGo (t.dropWhile isPyWhitespace) [] := by
  induction t with
  | nil => rfl
  | cons c t ih =>
    rw [wsWordsGo, List.dropWhile_cons]
    by_cases hc : isPyWhitespace c
    · rw [if_pos hc, if_pos hc]
      simpa using ih
    · rw [if_neg hc, if_neg hc, wsWordsGo, if_neg hc]

theorem collapse_word (w t : List Char) (hw : ∀ c ∈ w, ¬isPyWhitespace c) :
    collapseWsGo (w ++ t) false = w ++ collapseWsGo t false := by
  induction w with
  | nil => rfl
  | cons c w2 ih =>
    rw [List.cons_append, collapseWsGo,
      if_neg (hw c (List.mem_cons_self c w2)), List.cons_append]
    rw [ih (fun d hd => hw d (List.mem_cons_of_mem c hd))]

theorem wsWordsGo_acc (l : List Char) :
    ∀ acc, acc ≠ [] →
      wsWordsGo l acc =
        (acc ++ l.takeWhile (fun c => !isPyWhitespace c)) ::
          wsWordsGo (l.dropWhile (fun c => !isPyWhitespace c)) [] := by
  induction l with
  | nil =>
    intro acc hacc
    rw [wsWordsGo, if_neg (by simpa [List.isEmpty_iff] using hacc)]
    simp [wsWordsGo]
  | cons c t ih =>
    intro acc hacc
    rw [wsWordsGo, List.takeWhile_cons, List.dropWhile_cons]
    by_cases hc : isPyWhitespace c
    · rw [if_pos hc, if_neg (by simpa [List.isEmpty_iff] using hacc)]
      rw [if_neg (by simp [hc]), if_neg (by simp [hc])]
      simp [wsWordsGo, hc]
    · rw [if_neg hc, if_pos (by simp [hc]), if_pos (by simp [hc])]
      rw [ih (acc ++ [c]) (by simp)]
      simp

theorem dropWhile_append_of_exists {p : Char → Bool} (a z : List Char)
    (ha : ∃ c ∈ a, p c = false) :
    (a ++ z).dropWhile p = a.dropWhile p ++ z := by
  induction a with
  | nil => simp at ha
  | cons d a2 ih =>
    rw [List.cons_append, List.dropWhile_cons, List.dropWhile_cons]
    by_cases hd : p d
    · rw [if_pos hd, if_pos hd]
      apply ih
      obtain ⟨c, hc, hpc⟩ := ha
      rcases List.mem_cons.mp hc with hcd | hc2
      · rw [hcd] at hpc
        rw [hd] at hpc
        cases hpc
      · exact ⟨c, hc2, hpc⟩
    · rw [if_neg hd, if_neg hd, List.cons_append]

/-- Right strip of trailing whitespace. -/
def rstripWs (l : List Char) : List Char :=
  (l.reverse.dropWhile isPyWhitespace).reverse

theorem rstripWs_append (x y : List Char)
    (hy : ∃ c ∈ y, isPyWhitespace c = false) :
    rstripWs (x ++ y) = x ++ rstripWs y := by
  rw [rstripWs, rstripWs, List.reverse_append]
  rw [dropWhile_append_of_exists _ _ (by
    obtain ⟨c, hc, hpc⟩ := hy
    exact ⟨c, List.mem_reverse.mpr hc, hpc⟩)]
  rw [List.reverse_append, List.reverse_reverse]

theorem stripWs_eq (l : List Char) :
    stripWs l = rstripWs (l.dropWhile isPyWhitespace) := by
  rfl

theorem dropWhile_eq_self_of_all (p : Char → Bool) (l : List Char)
    (h : ∀ c ∈ l, p c = false) : l.dropWhile p = l := by
  cases l with
  | nil => rfl
  | cons c t =>
    rw [List.dropWhile_cons,
      if_neg (by simp [h c (List.mem_cons_self c t)])]

theorem stripWs_all_nonws (w : List Char)
    (hw : ∀ c ∈ w, ¬isPyWhitespace c) : stripWs w = w := by
  rw [stripWs_eq,
    dropWhile_eq_self_of_all _ _ (fun c hc => by simpa using hw c hc),
    rstripWs,
    dropWhile_eq_self_of_all _ _ (fun c hc => by
      simpa using hw c (List.mem_reverse.mp hc)),
    List.reverse_reverse]

theorem rstripWs_all_nonws (w : List Char)
    (hw : ∀ c ∈ w, ¬isPyWhitespace c) : rstripWs w = w := by
  rw [rstripWs,
    dropWhile_eq_self_of_all _ _ (fun c hc => by
      simpa using hw c (List.mem_reverse.mp hc)),
    List.reverse_reverse]

theorem dropWhile_head_false (p : Char → Bool) :
    ∀ (l : List Char) (d : Char) (r2 : List Char),
      l.dropWhile p = d :: r2 → p d = false := by
  intro l
  induction l with
  | nil =>
    intro d r2 h
    cases h
  | cons x t ih =>
    intro d r2 h
    rw [List.dropWhile_cons] at h
    by_cases hx : p x
    · rw [if_pos hx] at h
      exact ih d r2 h
    · rw [if_neg hx] at h
      injection h with h1 _
      rw [← h1]
      simpa using hx

theorem rstripWs_append_one_ws (x : List Char) (d : Char)
    (hd : isPyWhitespace d) : rstripWs (x ++ [d]) = rstripWs x := by
  rw [rstripWs]
  rw [show (x ++ [d]).reverse = d :: x.reverse from by simp]
  rw [List.dropWhile_cons, if_pos hd, rstripWs]

theorem rstripWs_cons_ws (d : Char) (y : List Char)
    (hd : isPyWhitespace d) (hy : ∃ c ∈ y, isPyWhitespace c = false) :
    rstripWs (d :: y) = d :: rstripWs y := by
  have hrev : ∃ c ∈ y.reverse, isPyWhitespace c = false := by
    obtain ⟨c, hc, hpc⟩ := hy
    exact ⟨c, List.mem_reverse.mpr hc, hpc⟩
  rw [rstripWs, List.reverse_cons, dropWhile_append_of_exists _ _ hrev]
  simp [rstripWs]

theorem joinWith_cons_ne {L : List (List Char)} (w : List Char)
    (hL : L ≠ []) :
    joinWith ' ' (w :: L) = w ++ ' ' :: joinWith ' ' L := by
  cases L with
  | nil => exact absurd rfl hL
  | cons u more =>
    simp [joinWith, List.append_assoc]

theorem wsWordsGo_cons_ne (e : Char) (r3 : List Char)
    (he : ¬isPyWhitespace e) : wsWordsGo (e :: r3) [] ≠ [] := by
  rw [wsWordsGo, if_neg he]
  simp only [List.nil_append]
  rw [wsWordsGo_acc r3 [e] (by simp)]
  simp

/-- The collapse-and-strip normalization equals the words of the input
joined by single spaces. -/
theorem stripWs_collapseWs (l : List Char) :
    stripWs (collapseWs l) = joinWith ' ' (wsWords l) := by
  suffices H : ∀ (n : Nat) (l : List Char), l.length ≤ n →
      stripWs (collapseWsGo l false) = joinWith ' ' (wsWordsGo l []) from
    H l.length l le_rfl
  intro n
  induction n with
  | zero =>
    intro l hl
    have : l = [] := List.length_eq_zero.mp (by omega)
    subst this
    rfl
  | succ n ih =>
    intro l hl
    cases l with
    | nil => rfl
    | cons c t =>
      have hwsGoWsHead : ∀ (d : Char) (t2 : List Char),
          isPyWhitespace d = true → wsWordsGo (d :: t2) [] =
            wsWordsGo t2 [] := by
        intro d t2 hd
        simp [wsWordsGo, hd]
      by_cases hc : isPyWhitespace c
      · rw [collapseWsGo, if_pos hc, collapse_true_skip,
          if_neg (show ¬(false = true) from by decide)]
        rw [hwsGoWsHead c t hc, wsWordsGo_skip]
        rw [show stripWs (' ' :: collapseWsGo
            (t.dropWhile isPyWhitespace) false) =
          stripWs (collapseWsGo (t.dropWhile isPyWhitespace) false) from by
            rw [stripWs_eq, stripWs_eq, List.dropWhile_cons,
              if_pos (by decide)]]
        apply ih
        have := dropWhileLenLe isPyWhitespace t
        simp only [List.length_cons] at hl
        omega
      · have hcb : (!isPyWhitespace c) = true := by simp [hc]
        obtain ⟨w, hw⟩ : ∃ w, w =
            (c :: t).takeWhile (fun d => !isPyWhitespace d) := ⟨_, rfl⟩
        obtain ⟨r, hr⟩ : ∃ r, r =
            (c :: t).dropWhile (fun d => !isPyWhitespace d) := ⟨_, rfl⟩
        have hsplit : w ++ r = c :: t := by
          rw [hw, hr]
          exact List.takeWhile_append_dropWhile
            (fun d => !isPyWhitespace d) (c :: t)
        have hwall : ∀ d ∈ w, ¬isPyWhitespace d = true := by
          intro d hd
          rw [hw] at hd
          have := List.mem_takeWhile_imp hd
          simpa using this
        have hwc2 : w = c :: t.takeWhile (fun d => !isPyWhitespace d) := by
          rw [hw, List.takeWhile_cons, if_pos hcb]
        have hrc2 : r = t.dropWhile (fun d => !isPyWhitespace d) := by
          rw [hr, List.dropWhile_cons, if_pos hcb]
        have hwords : wsWordsGo (c :: t) [] = w :: wsWordsGo r [] := by
          rw [wsWordsGo, if_neg hc]
          simp only [List.nil_append]
          rw [wsWordsGo_acc t [c] (by simp), hwc2, hrc2]
          simp
        have hcoll : collapseWsGo (c :: t) false =
            w ++ collapseWsGo r false := by
          conv_lhs => rw [← hsplit]
          exact collapse_word w r hwall
        rw [hcoll, hwords]
        have hlenr : r.length ≤ t.length := by
          rw [hrc2]
          exact dropWhileLenLe _ t
        have hwne : w ≠ [] := by
          rw [hwc2]
          simp
        have hlent : t.length ≤ n := by
          simp only [List.length_cons] at hl
          omega
        obtain ⟨cw, tw, hwcons⟩ : ∃ cw tw, w = cw :: tw := by
          cases hwcs : w with
          | nil => exact absurd hwcs hwne
          | cons a b => exact ⟨a, b, rfl⟩
        have hcwnws : ¬isPyWhitespace cw = true := by
          apply hwall
          rw [hwcons]
          exact List.mem_cons_self cw tw
        have hlstrip : ∀ (z : List Char),
            (w ++ z).dropWhile isPyWhitespace = w ++ z := by
          intro z
          rw [hwcons, List.cons_append, List.dropWhile_cons,
            if_neg hcwnws, ← List.cons_append, ← hwcons]
        cases hrc : r with
        | nil =>
          rw [show collapseWsGo ([] : List Char) false = [] from rfl,
            List.append_nil, stripWs_all_nonws w hwall]
          rw [show wsWordsGo ([] : List Char) [] = [] from rfl]
          simp [joinWith]
        | cons d r2 =>
          have hd : isPyWhitespace d = true := by
            have := dropWhile_head_false (fun x => !isPyWhitespace x)
              (c :: t) d r2 (by rw [← hr, hrc])
            simpa using this
          have hlenr2 : r2.length + 1 ≤ t.length := by
            rw [hrc] at hlenr
            simpa using hlenr
          rw [collapseWsGo, if_pos hd, collapse_true_skip,
            if_neg (show ¬(false = true) from by decide)]
          rw [hwsGoWsHead d r2 hd, wsWordsGo_skip]
          have hlenr3 : (r2.dropWhile isPyWhitespace).length ≤ n := by
            have h1 := dropWhileLenLe isPyWhitespace r2
            omega
          cases hr3c : r2.dropWhile isPyWhitespace with
          | nil =>
            rw [show collapseWsGo ([] : List Char) false = [] from rfl]
            rw [show wsWordsGo ([] : List Char) [] = [] from rfl]
            rw [stripWs_eq, hlstrip [' ']]
            rw [rstripWs_append_one_ws w ' ' (by decide),
              rstripWs_all_nonws w hwall]
            simp [joinWith]
          | cons e r4 =>
            have he : ¬isPyWhitespace e = true := by
              have := dropWhile_head_false isPyWhitespace r2 e r4 hr3c
              simpa using this
            have hyhead : collapseWsGo (e :: r4) false =
                e :: collapseWsGo r4 false := by
              rw [collapseWsGo, if_neg he]
            have hynws : ∃ x ∈ collapseWsGo (e :: r4) false,
                isPyWhitespace x = false := by
              refine ⟨e, ?_, by simpa using he⟩
              rw [hyhead]
              exact List.mem_cons_self e _
            have hynws2 : ∃ x ∈ ' ' :: collapseWsGo (e :: r4) false,
                isPyWhitespace x = false := by
              obtain ⟨x, hx, hpx⟩ := hynws
              exact ⟨x, List.mem_cons_of_mem ' ' hx, hpx⟩
            rw [stripWs_eq, hlstrip (' ' :: collapseWsGo (e :: r4) false)]
            rw [rstripWs_append w _ hynws2]
            rw [rstripWs_cons_ws ' ' _ (by decide) hynws]
            have hystrip : rstripWs (collapseWsGo (e :: r4) false) =
                stripWs (collapseWsGo (e :: r4) false) := by
              rw [stripWs_eq, hyhead, List.dropWhile_cons, if_neg he,
                ← hyhead]
            have hlen4 : (e :: r4).length ≤ n := by
              rw [← hr3c]
              exact hlenr3
            rw [hystrip, ih (e :: r4) hlen4]
            exact (joinWith_cons_ne w (wsWordsGo_cons_ne e r4
              (by simpa using he))).symm

theorem wsWordsGo_append_space (y : List Char) :
    ∀ (x acc : List Char),
      wsWordsGo (x ++ ' ' :: y) acc = wsWordsGo x acc ++ wsWordsGo y [] := by
  intro x
  induction x with
  | nil =>
    intro acc
    rw [List.nil_append]
    rw [show wsWordsGo (' ' :: y) acc =
      (if acc.isEmpty then wsWordsGo y [] else acc :: wsWordsGo y []) from
        by rw [wsWordsGo, if_pos (show isPyWhitespace ' ' = true from by
          decide)]]
    by_cases hacc : acc.isEmpty
    · rw [if_pos hacc]
      rw [show wsWordsGo ([] : List Char) acc = [] from by
        rw [wsWordsGo, if_pos hacc]]
      rw [List.nil_append]
    · rw [if_neg hacc]
      rw [show wsWordsGo ([] : List Char) acc = [acc] from by
        rw [wsWordsGo, if_neg hacc]]
      rw [List.cons_append, List.nil_append]
  | cons c x2 ih =>
    intro acc
    rw [List.cons_append]
    rw [show wsWordsGo (c :: (x2 ++ ' ' :: y)) acc =
      (if isPyWhitespace c then
        (if acc.isEmpty then wsWordsGo (x2 ++ ' ' :: y) []
         else acc :: wsWordsGo (x2 ++ ' ' :: y) [])
       else wsWordsGo (x2 ++ ' ' :: y) (acc ++ [c])) from rfl]
    rw [show wsWordsGo (c :: x2) acc =
      (if isPyWhitespace c then
        (if acc.isEmpty then wsWordsGo x2 []
         else acc :: wsWordsGo x2 [])
       else wsWordsGo x2 (acc ++ [c])) from rfl]
    by_cases hcws : isPyWhitespace c
    · rw [if_pos hcws, if_pos hcws]
      by_cases hacc : acc.isEmpty
      · rw [if_pos hacc, if_pos hacc, ih]
      · rw [if_neg hacc, if_neg hacc, ih, List.cons_append]
    · rw [if_neg hcws, if_neg hcws, ih]

/-- The fingerprint key of compute_content_hash depends only on the word
lists of the lowered title and the lowered truncated body. -/
theorem contentKey_words (t1 c1 t2 c2 : String)
    (ht : wsWords (t1.data.map pyLowerChar) =
      wsWords (t2.data.map pyLowerChar))
    (hc : wsWords ((c1.data.take 500).map pyLowerChar) =
      wsWords ((c2.data.take 500).map pyLowerChar)) :
    contentKey t1 c1 = contentKey t2 c2 := by
  rw [contentKey, contentKey, stripWs_collapseWs, stripWs_collapseWs]
  rw [wsWords, wsWords, wsWordsGo_append_space, wsWordsGo_append_space]
  rw [show wsWordsGo (t1.data.map pyLowerChar) [] =
    wsWords (t1.data.map pyLowerChar) from rfl]
  rw [show wsWordsGo (t2.data.map pyLowerChar) [] =
    wsWords (t2.data.map pyLowerChar) from rfl]
  rw [show wsWordsGo ((c1.data.take 500).map pyLowerChar) [] =
    wsWords ((c1.data.take 500).map pyLowerChar) from rfl]
  rw [show wsWordsGo ((c2.data.take 500).map pyLowerChar) [] =
    wsWords ((c2.data.take 500).map pyLowerChar) from rfl]
  rw [ht, hc]

/-- Claim C4 as amended: compute_content_hash is deterministic (it depends
only on its normalization key), and whitespace-only variants yield the
same fingerprint provided the 500-character truncated bodies are
whitespace variants of each other (equal word lists); truncation happens
before whitespace collapsing, so longer bodies differing in whitespace
inside the first 500 characters can hash differently, as the
counterexample shows. -/
theorem content_hash_whitespace :
    (∀ (t1 c1 t2 c2 : String), contentKey t1 c1 = contentKey t2 c2 →
      compute_content_hash t1 c1 = compute_content_hash t2 c2) ∧
    (∀ (t1 c1 t2 c2 : String),
      wsWords (t1.data.map pyLowerChar) =
        wsWords (t2.data.map pyLowerChar) →
      wsWords ((c1.data.take 500).map pyLowerChar) =
        wsWords ((c2.data.take 500).map pyLowerChar) →
      compute_content_hash t1 c1 = compute_content_hash t2 c2) := by
  constructor
  · intro t1 c1 t2 c2 hkey
    rw [compute_content_hash, compute_content_hash, hkey]
  · intro t1 c1 t2 c2 ht hc
    rw [compute_content_hash, compute_content_hash,
      contentKey_words t1 c1 t2 c2 ht hc]

/-- Witness for the amended C4 on concrete whitespace variants. -/
theorem content_hash_whitespace_witness :
    compute_content_hash "T x" "b" = compute_content_hash "T  x" " b " ∧
    compute_content_hash "Hello  World" "Some Body" =
      compute_content_hash " hello world" "some  body " :=
  ⟨content_hash_whitespace.1 "T x" "b" "T  x" " b " (by decide),
   content_hash_whitespace.2 "Hello  World" "Some Body" " hello world"
     "some  body " (by decide) (by decide)⟩

/-- A body whose double space shifts the 500-character window. -/
def c4body1 : String :=
  String.mk ('a' :: ' ' :: ' ' :: (List.replicate 498 'b' ++ ['c']))

/-- The same body with the whitespace run shortened to one space. -/
def c4body2 : String :=
  String.mk ('a' :: ' ' :: (List.replicate 498 'b' ++ ['c']))

set_option maxRecDepth 20000 in
set_option maxHeartbeats 4000000 in
/-- Counterexample to claim C4: the two bodies differ only in whitespace
(equal word lists), yet their fingerprints differ, because the body is
truncated to 500 characters before whitespace is collapsed. -/
theorem truncation_breaks_whitespace_invariance :
    wsWords c4body1.data = wsWords c4body2.data ∧
    compute_content_hash "t" c4body1 ≠ compute_content_hash "t" c4body2 := by
  constructor
  · decide
  · decide

/-! ## Canonicalizer idempotence (C8) -/

/-- Scheme component shape under which reparsing is exact: nonempty, led by
an ASCII letter, scheme characters after it, already lowercase. -/
def schemeOk (s : List Char) : Bool :=
  match s with
  | [] => false
  | c :: t => isAsciiAlpha c && t.all isSchemeChar && (c :: t).map pyLowerChar == c :: t

/-- Host component shape under which reparsing is exact and the host
transform fixes it: nonempty, free of delimiter and unsafe characters,
lowercase, not a reddit alias and not `www.`-prefixed. -/
def hostOk (n : List Char) : Bool :=
  !n.isEmpty &&
  n.all (fun c => !(c = '/' || c = '?' || c = '#' || c = '[' || c = ']' ||
    UNSAFE_URL_CHARS.contains c)) &&
  n.map pyLowerChar == n &&
  !(redditHosts.contains n) &&
  !(("www." : String).data.isPrefixOf n)

/-- Path component shape under which reparsing is exact: rooted and free of
query, fragment, params and unsafe characters. -/
def pathOk (p : List Char) : Bool :=
  p.head? == some '/' &&
  p.all (fun c => !(c = '?' || c = '#' || c = ';' || UNSAFE_URL_CHARS.contains c))

theorem findIdx?_of_all_false {q : Char → Bool} (l : List Char) (i : Nat)
    (h : ∀ x ∈ l, q x = false) : List.findIdx? q l i = none := by
  induction l generalizing i with
  | nil => rfl
  | cons c t ih =>
    rw [List.findIdx?_cons, if_neg]
    · exact ih (i + 1) (fun x hx => h x (List.mem_cons_of_mem c hx))
    · simp [h c (List.mem_cons_self c t)]

theorem findIdx?_append_skip {q : Char → Bool} (a b : List Char) (i : Nat)
    (h : ∀ x ∈ a, q x = false) :
    List.findIdx? q (a ++ b) i = List.findIdx? q b (i + a.length) := by
  induction a generalizing i with
  | nil => simp
  | cons c t ih =>
    rw [List.cons_append, List.findIdx?_cons, if_neg]
    · rw [ih (i + 1) (fun x hx => h x (List.mem_cons_of_mem c hx))]
      have : i + 1 + t.length = i + (c :: t).length := by simp; omega
      rw [this]
    · simp [h c (List.mem_cons_self c t)]

theorem splitFirst_eq_none (l : List Char) (c : Char)
    (h : ∀ x ∈ l, x ≠ c) : splitFirst l c = none := by
  induction l with
  | nil => rfl
  | cons x t ih =>
    rw [splitFirst, if_neg (h x (List.mem_cons_self x t)),
      ih (fun y hy => h y (List.mem_cons_of_mem x hy))]

theorem dropWhile_idem (q : Char → Bool) (l : List Char) :
    (l.dropWhile q).dropWhile q = l.dropWhile q := by
  induction l with
  | nil => rfl
  | cons c t ih =>
    rw [List.dropWhile_cons]
    by_cases h : q c = true
    · rw [if_pos h]; exact ih
    · rw [if_neg h, List.dropWhile_cons, if_neg h]

theorem rstripSlash_idem (l : List Char) :
    rstripSlash (rstripSlash l) = rstripSlash l := by
  simp only [rstripSlash, List.reverse_reverse]
  rw [dropWhile_idem]

theorem pathTransform_idem (x : List Char) :
    pathTransform (pathTransform x) = pathTransform x := by
  simp only [pathTransform]
  by_cases h : (rstripSlash x).isEmpty
  · rw [if_pos h]; rfl
  · rw [if_neg h, rstripSlash_idem, if_neg h]

theorem hostTransform_fix (n : List Char) (hl : n.map pyLowerChar = n)
    (hr : redditHosts.contains n = false)
    (hw : ("www." : String).data.isPrefixOf n = false) :
    hostTransform n = n := by
  simp only [hostTransform, hl, hr]
  simp [hw]

theorem queryTransform_nil : queryTransform [] = [] := rfl

theorem unsafe_char_cases (c : Char) (h : UNSAFE_URL_CHARS.contains c = true) :
    c = Char.ofNat 9 ∨ c = Char.ofNat 13 ∨ c = Char.ofNat 10 := by
  simp only [UNSAFE_URL_CHARS, List.contains_cons, List.contains_nil,
    Bool.or_eq_true, beq_iff_eq] at h
  rcases h with h | h | h | h
  · exact Or.inl h
  · exact Or.inr (Or.inl h)
  · exact Or.inr (Or.inr h)
  · exact absurd h (by decide)

theorem isAsciiAlpha_clean (c : Char) (h : isAsciiAlpha c = true) :
    c ≠ ':' ∧ UNSAFE_URL_CHARS.contains c = false := by
  constructor
  · intro he; subst he; exact absurd h (by decide)
  · by_contra hc
    rcases unsafe_char_cases c (by revert hc; cases UNSAFE_URL_CHARS.contains c <;> simp) with
      he | he | he <;> (subst he; exact absurd h (by decide))

theorem isSchemeChar_clean (c : Char) (h : isSchemeChar c = true) :
    c ≠ ':' ∧ UNSAFE_URL_CHARS.contains c = false := by
  constructor
  · intro he; subst he; exact absurd h (by decide)
  · by_contra hc
    rcases unsafe_char_cases c (by revert hc; cases UNSAFE_URL_CHARS.contains c <;> simp) with
      he | he | he <;> (subst he; exact absurd h (by decide))

theorem urlunparse_canonical (s n p : List Char) (hs : s ≠ []) (hn : n ≠ [])
    (hp : p.head? = some '/') :
    urlunparse s n p [] [] [] = s ++ ':' :: '/' :: '/' :: (n ++ p) := by
  obtain ⟨p2, rfl⟩ : ∃ p2, p = '/' :: p2 := by
    cases p with
    | nil => exact absurd hp (by simp)
    | cons c t => exact ⟨t, by injection hp with h; rw [h]⟩
  have hn' : n.isEmpty = false := by simpa [List.isEmpty_iff] using hn
  have hs' : s.isEmpty = false := by simpa [List.isEmpty_iff] using hs
  simp [urlunparse, urlunsplit, hn', hs']

theorem contains_eq_false_of (l : List Char) (a : Char) (h : a ∉ l) :
    l.contains a = false := by
  cases hc : l.contains a
  · rfl
  · exact absurd (List.elem_iff.mp hc) h

theorem urlparse_canonical (s n p : List Char)
    (hs : schemeOk s = true) (hn : hostOk n = true) (hp : pathOk p = true) :
    urlparse (s ++ ':' :: '/' :: '/' :: (n ++ p)) =
      Except.ok ⟨s, n, p, [], [], []⟩ := by
  obtain ⟨c0, s1, rfl⟩ : ∃ c0 s1, s = c0 :: s1 := by
    cases s with
    | nil => exact absurd hs (by simp [schemeOk])
    | cons c t => exact ⟨c, t, rfl⟩
  simp only [schemeOk, Bool.and_eq_true, beq_iff_eq] at hs
  obtain ⟨⟨halpha, hall⟩, hlow⟩ := hs
  simp only [hostOk, Bool.and_eq_true, Bool.not_eq_true', beq_iff_eq] at hn
  obtain ⟨⟨⟨⟨hnne, hnchars⟩, hnlow⟩, hnred⟩, hnwww⟩ := hn
  simp only [pathOk, Bool.and_eq_true, beq_iff_eq] at hp
  obtain ⟨hphead, hpchars⟩ := hp
  obtain ⟨p2, rfl⟩ : ∃ p2, p = '/' :: p2 := by
    cases p with
    | nil => exact absurd hphead (by simp)
    | cons c t => exact ⟨t, by injection hphead with h; rw [h]⟩
  have hnfacts : ∀ x ∈ n, x ≠ '/' ∧ x ≠ '?' ∧ x ≠ '#' ∧ x ≠ '[' ∧ x ≠ ']' ∧
      UNSAFE_URL_CHARS.contains x = false := by
    intro x hx
    have := (List.all_eq_true.mp hnchars) x hx
    simp only [Bool.not_eq_true', Bool.or_eq_false_iff, decide_eq_false_iff_not] at this
    exact ⟨this.1.1.1.1.1, this.1.1.1.1.2, this.1.1.1.2, this.1.1.2, this.1.2, this.2⟩
  have hpfacts : ∀ x ∈ '/' :: p2, x ≠ '?' ∧ x ≠ '#' ∧ x ≠ ';' ∧
      UNSAFE_URL_CHARS.contains x = false := by
    intro x hx
    have := (List.all_eq_true.mp hpchars) x hx
    simp only [Bool.not_eq_true', Bool.or_eq_false_iff, decide_eq_false_iff_not] at this
    exact ⟨this.1.1.1, this.1.1.2, this.1.2, this.2⟩
  have hsfacts : ∀ x ∈ c0 :: s1, x ≠ ':' ∧ UNSAFE_URL_CHARS.contains x = false := by
    intro x hx
    rcases List.mem_cons.mp hx with rfl | hx1
    · exact isAsciiAlpha_clean x halpha
    · exact isSchemeChar_clean x ((List.all_eq_true.mp hall) x hx1)
  have hfilter :
      ((c0 :: s1) ++ ':' :: '/' :: '/' :: (n ++ '/' :: p2)).filter
        (fun c => !(UNSAFE_URL_CHARS.contains c)) =
      (c0 :: s1) ++ ':' :: '/' :: '/' :: (n ++ '/' :: p2) := by
    refine List.filter_eq_self.mpr ?_
    intro a ha
    have hc : UNSAFE_URL_CHARS.contains a = false := by
      simp only [List.mem_append, List.mem_cons] at ha
      rcases ha with (rfl | h1) | rfl | rfl | rfl | h1 | rfl | h1
      · exact (hsfacts a (List.mem_cons_self _ _)).2
      · exact (hsfacts a (List.mem_cons_of_mem _ h1)).2
      · decide
      · decide
      · decide
      · exact (hnfacts a h1).2.2.2.2.2
      · decide
      · exact (hpfacts a (List.mem_cons_of_mem _ h1)).2.2.2
    show (!UNSAFE_URL_CHARS.contains a) = true
    rw [hc]
    rfl
  have hsfind :
      List.findIdx? (fun c => c = ':')
        ((c0 :: s1) ++ ':' :: '/' :: '/' :: (n ++ '/' :: p2)) 0 =
      some (c0 :: s1).length := by
    rw [findIdx?_append_skip _ _ 0
      (fun x hx => decide_eq_false (hsfacts x hx).1)]
    rw [List.findIdx?_cons, if_pos (by decide)]
    simp
  have htake :
      ((c0 :: s1) ++ ':' :: '/' :: '/' :: (n ++ '/' :: p2)).take
        (c0 :: s1).length = c0 :: s1 := List.take_left _ _
  have hdrop :
      ((c0 :: s1) ++ ':' :: '/' :: '/' :: (n ++ '/' :: p2)).drop
        ((c0 :: s1).length + 1) = '/' :: '/' :: (n ++ '/' :: p2) := by
    rw [List.append_cons,
      show (c0 :: s1).length + 1 = ((c0 :: s1) ++ [':']).length from by simp,
      List.drop_left]
  have hscheme :
      schemeSplit ((c0 :: s1) ++ ':' :: '/' :: '/' :: (n ++ '/' :: p2)) =
        (c0 :: s1, '/' :: '/' :: (n ++ '/' :: p2)) := by
    simp only [schemeSplit, hsfind, htake, hdrop, List.head?_append]
    rw [if_pos]
    · rw [hlow]
    · simp [halpha, hall]
  have hnq : ∀ x ∈ n, (decide (x = '/') || decide (x = '?') || decide (x = '#')) = false := by
    intro x hx
    obtain ⟨h1, h2, h3, _, _, _⟩ := hnfacts x hx
    simp [h1, h2, h3]
  have hdfind :
      List.findIdx? (fun c => c = '/' || c = '?' || c = '#') (n ++ '/' :: p2) 0 =
        some n.length := by
    rw [findIdx?_append_skip _ _ 0 hnq, List.findIdx?_cons, if_pos (by decide)]
    simp
  have hsplit :
      urlsplit ((c0 :: s1) ++ ':' :: '/' :: '/' :: (n ++ '/' :: p2)) =
        Except.ok ⟨c0 :: s1, n, '/' :: p2, [], []⟩ := by
    simp only [urlsplit, hfilter, hscheme]
    rw [if_pos (by simp)]
    simp only [List.drop_succ_cons, List.drop_zero, hdfind]
    rw [show n.length + 2 = (n.length + 1) + 1 from rfl]
    simp only [List.take_succ_cons, List.take_left, List.drop_succ_cons,
      List.drop_zero, List.drop_left]
    rw [if_neg]
    · have h1 : splitFirst ('/' :: p2) '#' = none :=
        splitFirst_eq_none _ _ (fun x hx => (hpfacts x hx).2.1)
      have h2 : splitFirst ('/' :: p2) '?' = none :=
        splitFirst_eq_none _ _ (fun x hx => (hpfacts x hx).1)
      simp [urlsplitRest, h1, h2]
    · have hbr1 : n.contains '[' = false :=
        contains_eq_false_of n '[' (fun hm => (hnfacts _ hm).2.2.2.1 rfl)
      have hbr2 : n.contains ']' = false :=
        contains_eq_false_of n ']' (fun hm => (hnfacts _ hm).2.2.2.2.1 rfl)
      simp only [hbr1, hbr2]
      simp
  have hsp : splitParams ('/' :: p2) = ('/' :: p2, []) := by
    rw [splitParams]
    have hcont : ('/' :: p2).contains '/' = true := by
      simp [List.contains_cons]
    rw [hcont]
    have hnosemi : ∀ st, List.findIdx? (fun x => x = ';') (('/' :: p2).drop st) 0 = none := by
      intro st
      refine findIdx?_of_all_false _ 0 ?_
      intro x hx
      exact decide_eq_false (hpfacts x (List.mem_of_mem_drop hx)).2.2.1
    cases hk : lastIdxOf ('/' :: p2) '/' with
    | none => simp
    | some k => simp [findFrom, hnosemi k]
  rw [urlparse, hsplit]
  simp [hsp]

theorem schemeOk_lower (s : List Char) (h : schemeOk s = true) :
    s.map pyLowerChar = s := by
  cases s with
  | nil => exact absurd h (by decide)
  | cons c t =>
    simp only [schemeOk, Bool.and_eq_true, beq_iff_eq] at h
    exact h.2

theorem hostOk_parts (n : List Char) (h : hostOk n = true) :
    n.map pyLowerChar = n ∧ redditHosts.contains n = false ∧
      ("www." : String).data.isPrefixOf n = false := by
  simp only [hostOk, Bool.and_eq_true, Bool.not_eq_true', beq_iff_eq] at h
  exact ⟨h.1.1.2, h.1.2, h.2⟩

set_option maxRecDepth 10000 in
/-- C8 counterexample: normalize_url is not idempotent. The canonicalizer
strips exactly one leading `www.` from the host per call, so the host
`www.www.example.com` canonicalizes to `www.example.com`, which a second
application canonicalizes further to `example.com`. -/
theorem normalize_url_idempotence_refuted :
    normalize_url (normalize_url "https://www.www.example.com/x") ≠
      normalize_url "https://www.www.example.com/x" := by decide

/-- C8 (amended): normalize_url is deterministic (equal input strings give
equal outputs), and it is idempotent on every URL whose canonical
components are already fixed points of the per-component transforms: the
parse succeeds with empty params and query, the lowercased scheme is a
well-formed lowercase scheme, the transformed host is nonempty, free of
delimiter characters, lowercase, not a reddit alias and not
`www.`-prefixed, and the transformed path is rooted and free of query,
fragment, params and unsafe characters. Idempotence fails in general
because the `www.`-strip (and the reddit-alias collapse) can newly apply
on a second pass. -/
theorem normalize_url_deterministic_and_conditionally_idempotent :
    (∀ u v : String, u.data = v.data → normalize_url u = normalize_url v) ∧
    ∀ (u : String) (pr : UrlParseResult),
      urlparse u.data = Except.ok pr →
      pr.params = [] → pr.query = [] →
      schemeOk (pr.scheme.map pyLowerChar) = true →
      hostOk (hostTransform pr.netloc) = true →
      pathOk (pathTransform pr.path) = true →
      normalize_url (normalize_url u) = normalize_url u := by
  constructor
  · intro u v h
    simp [normalize_url, h]
  · intro u pr hpr hparams hquery hs hn hp
    have hsne : pr.scheme.map pyLowerChar ≠ [] := by
      intro hnil
      rw [hnil] at hs
      exact absurd hs (by decide)
    have hnne : hostTransform pr.netloc ≠ [] := by
      intro hnil
      rw [hnil] at hn
      exact absurd hn (by decide)
    have hphead : (pathTransform pr.path).head? = some '/' := by
      have h2 := hp
      simp only [pathOk, Bool.and_eq_true, beq_iff_eq] at h2
      exact h2.1
    have hv : normalize_url u = String.mk
        (urlunparse (pr.scheme.map pyLowerChar) (hostTransform pr.netloc)
          (pathTransform pr.path) [] [] []) := by
      simp only [normalize_url, normalizeUrlList, hpr, hparams, hquery,
        queryTransform_nil]
    have hvdata : (normalize_url u).data =
        (pr.scheme.map pyLowerChar) ++ ':' :: '/' :: '/' ::
          (hostTransform pr.netloc ++ pathTransform pr.path) := by
      rw [hv]
      exact urlunparse_canonical _ _ _ hsne hnne hphead
    have hparse2 : urlparse (normalize_url u).data =
        Except.ok ⟨pr.scheme.map pyLowerChar, hostTransform pr.netloc,
          pathTransform pr.path, [], [], []⟩ := by
      rw [hvdata]
      exact urlparse_canonical _ _ _ hs hn hp
    obtain ⟨hnlow, hnred, hnwww⟩ := hostOk_parts _ hn
    have hmain : normalizeUrlList (normalize_url u).data =
        (normalize_url u).data := by
      simp only [normalizeUrlList, hparse2, queryTransform_nil,
        schemeOk_lower _ hs, hostTransform_fix _ hnlow hnred hnwww,
        pathTransform_idem]
      rw [hvdata]
      exact urlunparse_canonical _ _ _ hsne hnne hphead
    have hfin : normalize_url (normalize_url u) =
        String.mk (normalizeUrlList (normalize_url u).data) := rfl
    rw [hfin, hmain]

set_option maxRecDepth 10000 in
/-- Witness for the amended C8 theorem: a concrete already-canonical URL on
which the side conditions hold and a second normalization is the identity. -/
theorem normalize_url_deterministic_and_conditionally_idempotent_witness :
    normalize_url (normalize_url "https://example.com/news/story") =
      normalize_url "https://example.com/news/story" :=
  normalize_url_deterministic_and_conditionally_idempotent.2
    "https://example.com/news/story"
    ⟨("https" : String).data, ("example.com" : String).data,
      ("/news/story" : String).data, [], [], []⟩
    (by decide) rfl rfl (by decide) (by decide) (by decide)

end NimaGap
